import Mathlib

/-!
Shallow embedding of the candidate discovery & ranking engine of the
New_HR_Network_App repository (backend/app/services/contact_generation.py,
title_parser.py, search_client.py, domains.py), together with proofs of the
behavioural claims stated about it.

Python strings are modelled as Lean `String`s (with helpers working on
`List Char`); Python ints as `Int`/`Nat`; `None`-able values as `Option`;
Python sets as first-occurrence-deduplicated lists; dicts as association
lists in insertion order.  Regular-expression operations from the source are
modelled by dedicated total functions implementing the same matching
semantics (leftmost match, greedy with backtracking, word boundaries) for
the concrete patterns appearing in the source.
-/

set_option maxRecDepth 10000
set_option linter.unusedVariables false

/-- Python whitespace (as used by str.strip / str.split / regex \s). -/
def pyIsWS (c : Char) : Bool :=
  c = ' ' || c = '\t' || c = '\n' || c = '\r' || c = '\x0b' || c = '\x0c'

/-- Regex word character \w (ASCII): letter, digit or underscore. -/
def wordChar (c : Char) : Bool := c.isAlphanum || c = '_'

/-- Python str.lower, character-wise. -/
def pyLower (s : String) : String := String.mk (s.toList.map Char.toLower)

/-- Drop leading whitespace of a char list. -/
def dropLeadWS (l : List Char) : List Char := l.dropWhile pyIsWS

/-- Drop trailing whitespace of a char list. -/
def dropTrailWS (l : List Char) : List Char := ((l.reverse).dropWhile pyIsWS).reverse

/-- Python str.strip() on char lists. -/
def pyStripList (l : List Char) : List Char := dropTrailWS (dropLeadWS l)

/-- Python str.strip(). -/
def pyStrip (s : String) : String := String.mk (pyStripList s.toList)

/-- Python str.strip(chars) with an explicit character set. -/
def pyStripChars (cs : List Char) (s : String) : String :=
  String.mk ((((s.toList.dropWhile (· ∈ cs)).reverse).dropWhile (· ∈ cs)).reverse)

/-- Substring occurrence test on char lists. -/
def infixOfList (pat : List Char) : List Char → Bool
  | [] => pat.isEmpty
  | c :: rest => pat.isPrefixOf (c :: rest) || infixOfList pat rest

/-- Python substring containment: `pat in s`. -/
def containsSub (s pat : String) : Bool := infixOfList pat.toList s.toList

theorem length_dropWhile_le (p : Char → Bool) (l : List Char) :
    (l.dropWhile p).length ≤ l.length := by
  induction l with
  | nil => simp [List.dropWhile]
  | cons c rest ih =>
    simp only [List.dropWhile]
    split
    · exact Nat.le_succ_of_le ih
    · exact Nat.le_refl _

/-- Replace all (leftmost, non-overlapping) occurrences of `pat` by `rep`,
    scanning left to right; Python str.replace.  Recursion is structural on a
    fuel argument (initially the list length, enough for the whole scan since
    every step consumes at least one character). -/
def replaceSubAux (pat rep : List Char) : Nat → List Char → List Char
  | 0, l => l
  | fuel + 1, l =>
    match l with
    | [] => []
    | c :: rest =>
      if pat ≠ [] ∧ pat.isPrefixOf (c :: rest) then
        rep ++ replaceSubAux pat rep fuel ((c :: rest).drop pat.length)
      else
        c :: replaceSubAux pat rep fuel rest

def replaceSubList (pat rep l : List Char) : List Char :=
  replaceSubAux pat rep l.length l

/-- Python str.replace on strings. -/
def pyReplace (s pat rep : String) : String :=
  String.mk (replaceSubList pat.toList rep.toList s.toList)

/-- Split on an (assumed nonempty) separator substring, keeping empty pieces;
    Python str.split(sep).  Fuel-structural like replaceSubAux. -/
def splitSubAux (sep : List Char) : Nat → List Char → List (List Char)
  | 0, l => [l]
  | fuel + 1, l =>
    match l with
    | [] => [[]]
    | c :: rest =>
      if sep ≠ [] ∧ sep.isPrefixOf (c :: rest) then
        [] :: splitSubAux sep fuel ((c :: rest).drop sep.length)
      else
        (splitSubAux sep fuel rest).modifyHead (c :: ·)

def splitSubList (sep l : List Char) : List (List Char) :=
  splitSubAux sep l.length l

/-- Python str.split(sep) on strings. -/
def pySplitOn (s sep : String) : List String :=
  (splitSubList sep.toList s.toList).map String.mk

/-- Split on any single character from `seps`, keeping empty pieces;
    models re.split over a character class. -/
def splitAnyCharList (seps : List Char) : List Char → List (List Char)
  | [] => [[]]
  | c :: rest =>
    if c ∈ seps then [] :: splitAnyCharList seps rest
    else (splitAnyCharList seps rest).modifyHead (c :: ·)

/-- re.split over a character class, on strings. -/
def pySplitAny (seps : List Char) (s : String) : List String :=
  (splitAnyCharList seps s.toList).map String.mk

/-- Maximal runs of characters satisfying `p`; models re.findall over a
    one-character-class pattern (fuel-structural). -/
def runsOfAux (p : Char → Bool) : Nat → List Char → List (List Char)
  | 0, _ => []
  | fuel + 1, l =>
    match l with
    | [] => []
    | c :: rest =>
      if p c then (c :: rest.takeWhile p) :: runsOfAux p fuel (rest.dropWhile p)
      else runsOfAux p fuel rest

def runsOf (p : Char → Bool) (l : List Char) : List (List Char) :=
  runsOfAux p l.length l

/-- Python str.split() with no argument: split on whitespace runs,
    dropping empty pieces. -/
def pyWordsList (l : List Char) : List (List Char) :=
  runsOf (fun c => ¬ pyIsWS c) l

/-- Python str.split() on strings. -/
def pyWords (s : String) : List String := (pyWordsList s.toList).map String.mk

/-- Join with a separator; Python sep.join. -/
def pyJoin (sep : String) : List String → String
  | [] => ""
  | p :: rest => rest.foldl (fun acc x => acc ++ sep ++ x) p

/-- re.sub(r"\s+", " ", s).strip(): collapse whitespace runs and trim. -/
def pyCollapseWS (s : String) : String := pyJoin " " (pyWords s)

/-- First-occurrence deduplication of a list of strings (models building a
    Python set from a list, for cardinality/membership purposes). -/
def dedupStr (l : List String) : List String := l.eraseDups

/-- Cardinality of the intersection of two (deduplicated) string sets. -/
def interCard (a b : List String) : Nat := (a.filter (fun x => b.contains x)).length

/-- Set inclusion of (deduplicated) string sets. -/
def subsetStr (a b : List String) : Bool := a.all (fun x => b.contains x)

/-- Boundary condition on the character preceding a match position:
    `none` is the start of the string. -/
def leftBoundaryOk (prev : Option Char) : Bool :=
  match prev with
  | none => true
  | some c => ¬ wordChar c

/-- Right boundary after a match: end of string or a non-word character. -/
def rightBoundaryOk : List Char → Bool
  | [] => true
  | c :: _ => ¬ wordChar c

/-- Does `phrase` (a literal starting and ending with word characters) match
    at the head of `s` with word boundaries on both sides?  `prev` is the
    character just before `s` in the scanned text. -/
def wbMatchHere (phrase : List Char) (prev : Option Char) (s : List Char) : Bool :=
  leftBoundaryOk prev && phrase.isPrefixOf s && rightBoundaryOk (s.drop phrase.length)

/-- Scan of re.search(r"\bphrase\b", text) for a literal phrase: true iff the
    phrase occurs somewhere with word boundaries. -/
def hasWBList (phrase : List Char) : Option Char → List Char → Bool
  | _, [] => false
  | prev, c :: rest =>
    wbMatchHere phrase prev (c :: rest) || hasWBList phrase (some c) rest

/-- Word-bounded literal-phrase search on strings (the phrase is assumed to
    be given in the same case as the searched text, as in the source where
    the text is lower-cased first). -/
def hasWB (phrase text : String) : Bool := hasWBList phrase.toList none text.toList

/-- Word-bounded search over an alternation of literal phrases
    (re.search(r"\b(p1|p2|...)\b", text)). -/
def hasWBAny (phrases : List String) (text : String) : Bool :=
  phrases.any (fun p => hasWB p text)

/-- Case-insensitive prefix test of a (lower-case) literal. -/
def lowerIsPrefixOf (pat : List Char) (s : List Char) : Bool :=
  pat.isPrefixOf (s.take pat.length |>.map Char.toLower)

/-- Case-insensitive word-bounded match of a lower-case literal at the head. -/
def wbMatchHereCI (phrase : List Char) (prev : Option Char) (s : List Char) : Bool :=
  leftBoundaryOk prev && lowerIsPrefixOf phrase s
    && rightBoundaryOk (s.drop phrase.length)

/-- First alternative (in alternation order) matching case-insensitively at
    the head with word boundaries; returns its length. -/
def findWBAlt (alts : List (List Char)) (prev : Option Char) (s : List Char) :
    Option Nat :=
  match alts with
  | [] => none
  | a :: more =>
    if wbMatchHereCI a prev s then some a.length else findWBAlt more prev s

theorem findWBAlt_mem_length {alts : List (List Char)} {prev s n}
    (h : findWBAlt alts prev s = some n) : ∃ a ∈ alts, a.length = n := by
  induction alts with
  | nil => simp [findWBAlt] at h
  | cons a more ih =>
    simp only [findWBAlt] at h
    split at h
    · exact ⟨a, List.mem_cons_self a more, by injection h⟩
    · obtain ⟨b, hb, hl⟩ := ih h
      exact ⟨b, List.mem_cons_of_mem a hb, hl⟩

/-- re.sub over a word-bounded alternation of literal phrases, replacing each
    (leftmost, non-overlapping) match by a single space, case-insensitively;
    scanning continues right after each match, with the original matched
    characters providing the boundary context (fuel-structural; the source
    alternatives are all nonempty, so every step consumes a character). -/
def replaceWBAltsAux (alts : List (List Char)) :
    Nat → Option Char → List Char → List Char
  | 0, _, l => l
  | fuel + 1, prev, l =>
    match l with
    | [] => []
    | c :: rest =>
      match findWBAlt alts prev (c :: rest) with
      | some n =>
        ' ' :: replaceWBAltsAux alts fuel ((c :: rest).take n).getLast?
            ((c :: rest).drop n)
      | none => c :: replaceWBAltsAux alts fuel (some c) rest

def replaceWBAlts (alts : List (List Char)) (l : List Char) : List Char :=
  replaceWBAltsAux alts l.length none l

/-- Scan for the first ')' in the list, stopping at a newline (regex '.'
    does not cross newlines); returns the tail after the ')'. -/
def afterCloseParen : List Char → Option (List Char)
  | [] => none
  | ')' :: r => some r
  | '\n' :: _ => none
  | _ :: r => afterCloseParen r

/-- re.sub(r"\(.*?\)", "", s): remove each leftmost parenthesised group
    (lazily, up to the nearest ')', not crossing newlines); fuel-structural. -/
def removeParensAux : Nat → List Char → List Char
  | 0, l => l
  | fuel + 1, l =>
    match l with
    | [] => []
    | c :: rest =>
      if c = '(' then
        match afterCloseParen rest with
        | some after => removeParensAux fuel after
        | none => c :: removeParensAux fuel rest
      else
        c :: removeParensAux fuel rest

def removeParens (l : List Char) : List Char := removeParensAux l.length l

/-- Match of r"\bfixing\s+income\b" (IGNORECASE) at the head of `s` with
    preceding character `prev`; returns the matched length. -/
def canonFixingMatch (prev : Option Char) (s : List Char) : Option Nat :=
  let fixing := "fixing".toList
  let income := "income".toList
  if leftBoundaryOk prev && lowerIsPrefixOf fixing s then
    let afterFixing := s.drop fixing.length
    let wsRun := afterFixing.takeWhile pyIsWS
    if wsRun.length = 0 then none
    else
      let afterWS := afterFixing.drop wsRun.length
      if lowerIsPrefixOf income afterWS
          && rightBoundaryOk (afterWS.drop income.length) then
        some (fixing.length + wsRun.length + income.length)
      else none
  else none

/-- re.sub(r"\bfixing\s+income\b", "fixed income", value, flags=IGNORECASE):
    word-bounded "fixing", one-or-more whitespace, "income", word-bounded;
    each match is replaced by the literal "fixed income" (fuel-structural;
    every match consumes at least one character). -/
def canonFixingAux : Nat → Option Char → List Char → List Char
  | 0, _, l => l
  | fuel + 1, prev, l =>
    match l with
    | [] => []
    | c :: rest =>
      match canonFixingMatch prev (c :: rest) with
      | some n =>
        "fixed income".toList ++ canonFixingAux fuel (some 'e') ((c :: rest).drop n)
      | none => c :: canonFixingAux fuel (some c) rest

def canonFixingList (l : List Char) : List Char := canonFixingAux l.length none l

/-- Backtracking for a greedy one-or-more character-class group `run` followed
    by a suffix condition: the largest k ≤ bound with 1 ≤ k such that the
    suffix condition holds right after `run.take k`. -/
def greedyPick (run tail : List Char) (suffixOk : List Char → Bool) : Nat → Option Nat
  | 0 => none
  | k + 1 =>
    if suffixOk (run.drop (k + 1) ++ tail) then some (k + 1)
    else greedyPick run tail suffixOk k

/-- Match of ([A-Z][a-zA-Z ]+) followed by `suffixOk` at the head of `s`
    (greedy with backtracking); returns the captured group. -/
def groupMatchAt (suffixOk : List Char → Bool) (s : List Char) : Option (List Char) :=
  match s with
  | [] => none
  | c :: rest =>
    if c.isUpper then
      let run := rest.takeWhile (fun x => x.isAlpha || x = ' ')
      let tail := rest.drop run.length
      match greedyPick run tail suffixOk run.length with
      | some k => some (c :: run.take k)
      | none => none
    else none

/-- Leftmost match of ([A-Z][a-zA-Z ]+)+suffix over the whole text. -/
def scanGroup (suffixOk : List Char → Bool) : List Char → Option (List Char)
  | [] => none
  | c :: rest =>
    match groupMatchAt suffixOk (c :: rest) with
    | some g => some g
    | none => scanGroup suffixOk rest

/-- Leftmost match of "Greater ([A-Z][a-zA-Z ]+) Area". -/
def scanGreater : List Char → Option (List Char)
  | [] => none
  | c :: rest =>
    match
      (if "Greater ".toList.isPrefixOf (c :: rest) then
        groupMatchAt (fun r => " Area".toList.isPrefixOf r)
          ((c :: rest).drop "Greater ".toList.length)
      else none)
    with
    | some g => some g
    | none => scanGreater rest

/-- title_parser.extract_city(snippet): tries, in order, the patterns
    "([A-Z][a-zA-Z ]+), United States", "Greater ([A-Z][a-zA-Z ]+) Area",
    "([A-Z][a-zA-Z ]+) Area", "([A-Z][a-zA-Z ]+), [A-Z]{2}"; returns the
    first capture group stripped, else "". -/
def extract_city (snippet : String) : String :=
  if snippet = "" then ""
  else
    let l := snippet.toList
    let p1 := scanGroup (fun r => ", United States".toList.isPrefixOf r) l
    let p2 := scanGreater l
    let p3 := scanGroup (fun r => " Area".toList.isPrefixOf r) l
    let p4 := scanGroup
      (fun r =>
        match r with
        | ',' :: ' ' :: u1 :: u2 :: _ => u1.isUpper && u2.isUpper
        | _ => false) l
    match p1.orElse (fun _ => p2) |>.orElse (fun _ => p3) |>.orElse (fun _ => p4) with
    | some g => pyStrip (String.mk g)
    | none => ""

/-- title_parser.parse_title(text): strips the "| LinkedIn" brand, splits on
    " - " (stripping each part and dropping empties); the first part is the
    name, and the remaining parts joined back with " - " are the role/company
    text. -/
def parse_title (text : String) : String × String :=
  if text = "" then ("", "")
  else
    let cleaned := pyStrip (pyReplace text "| LinkedIn" "")
    let parts := ((pySplitOn cleaned " - ").map pyStrip).filter (fun p => p ≠ "")
    (parts.headD "", pyJoin " - " parts.tail)

/-- Leftmost match of r"\bat\s+(.+)$" (IGNORECASE): word-bounded "at"
    followed by whitespace, capturing the rest of the line; greedy whitespace
    with minimal backtracking, and '.' not matching a newline.  Returns the
    capture group. -/
def atClauseGroup : Option Char → List Char → Option (List Char)
  | _, [] => none
  | prev, c :: rest =>
    let s := c :: rest
    match
      (if leftBoundaryOk prev && lowerIsPrefixOf "at".toList s then
        let rem := s.drop 2
        let run := rem.takeWhile pyIsWS
        let tail := rem.drop run.length
        if run.length = 0 then none
        else if tail ≠ [] then
          if tail.contains '\n' then none else some tail
        else if 2 ≤ run.length ∧ run.getLast? ≠ some '\n' then
          match run.getLast? with
          | some w => some [w]
          | none => none
        else none
      else none)
    with
    | some g => some g
    | none => atClauseGroup (some c) rest

/-- Suffix test on char lists. -/
def isSuffixList (p l : List Char) : Bool := p.reverse.isPrefixOf l.reverse

/-- contact_generation.DIVISION_PATTERNS: each source pattern is a literal
    suffix anchored with `$` (no word boundary), searched case-insensitively;
    modelled as the bare lower-case suffixes, in source order. -/
def DIVISION_PATTERNS : List String := [
  "investment management",
  "asset management",
  "global advisors",
  "wealth management",
  "private wealth",
  "investors",
  "capital management",
  "capital",
  "corporation",
  "management",
  "associates",
  "financial",
  "global investor",
  "strategic advisors",
  "investment corporation",
  "investment group",
  "investments",
  "technology",
  "technologies",
  "company",
  "&",
  "strategy",
  "etfs",
  "markets",
  "investment",
  "global",
  "inc",
  "llc",
  "ltd",
  "co",
  "corp",
  "plc"]

def COMPANY_WHITELIST : List String := [
  "neuberger berman",
  "t. rowe price",
  "lord abbett",
  "janus henderson",
  "fidelity investments",
  "capital group",
  "vanguard",
  "pimco",
  "jennison associates"]

def GENERIC_COMPANY_TOKENS : List String := [
  "and", "co", "company", "companies", "inc", "incorporated", "corp", "corporation", "llc",
  "ltd", "limited", "lp", "llp", "plc", "group", "holdings", "global", "international",
  "financial", "securities", "capital", "management", "asset", "assets", "investments",
  "investment", "banking", "partners", "partner", "advisors", "advisor", "associates",
  "bank"]

def GENERIC_ROLE_TOKENS : List String := [
  "and", "the", "of", "for", "with", "at", "in", "to", "a", "an", "team", "role",
  "group", "analyst", "associate", "vice", "president", "director", "managing",
  "executive", "senior", "junior"]

def GROUP_MATCH_STOPWORDS : List String :=
  GENERIC_ROLE_TOKENS ++ [
    "investment", "banking", "global", "markets", "capital", "finance", "financial",
    "services", "coverage", "division", "industry", "sector", "institutional"]

def GENERIC_KEYWORD_VARIANTS : List String := [
  "analyst", "associate", "vice president", "vp", "director", "executive director",
  "managing director", "md"]

def SHORT_DESK_TOKENS : List String := ["fx", "fi", "dcm", "ecm", "fig", "tmt", "ma", "mna"]

def SENIORITY_QUERY_MAP : List (String × String) := [
  ("Analyst", "Analyst"),
  ("Associate", "Associate"),
  ("VP", "(\x22Vice President\x22 OR VP)"),
  ("Executive Director", "(\x22Executive Director\x22 OR ED)"),
  ("Director", "Director"),
  ("Managing Director", "(\x22Managing Director\x22 OR MD)")]

def SENIORITY_UI_ORDER : List String := [
  "Analyst", "Associate", "VP", "Director", "Executive Director", "Managing Director"]

def SENIORITY_ORDER_INDEX : List (String × Nat) :=
  SENIORITY_UI_ORDER.enum.map (fun p => (p.2, p.1))

def SENIORITY_DISTRIBUTION_WEIGHTS : List (String × Nat) := [
  ("Analyst", 6),
  ("Associate", 3),
  ("VP", 2),
  ("Director", 1),
  ("Executive Director", 1),
  ("Managing Director", 1)]

/-- contact_generation.normalize_company_name: whitelist short-circuit, else
    strip the first division/legal-suffix pattern (in list order) that
    matches as a suffix of the lower-cased name. -/
def normalize_company_name (raw : String) : String :=
  let name := pyStrip raw
  if name = "" then ""
  else
    let nameLower := pyLower name
    if COMPANY_WHITELIST.contains nameLower then name
    else
      match DIVISION_PATTERNS.find? (fun p => isSuffixList p.toList nameLower.toList) with
      | some p =>
        pyStrip (String.mk (name.toList.take (name.toList.length - p.toList.length)))
      | none => name

/-- contact_generation.clean_full_name: drop parenthesised asides, truncate
    at the first comma, drop periods, collapse whitespace; returns
    (full name, first token, last token). -/
def clean_full_name (raw_name : String) : String × String × String :=
  let full_name := pyStrip raw_name
  let name1 := String.mk (removeParens full_name.toList)
  let name2 := (pySplitOn name1 ",").headD ""
  let name3 := pyReplace name2 "." ""
  let name := pyCollapseWS name3
  let parts := (pySplitOn name " ").filter (fun p => p ≠ "")
  if parts.length < 2 then (name, parts.headD "", "")
  else (name, parts.headD "", parts.getLastD "")

/-- contact_generation.normalize_lookup_text. -/
def normalize_lookup_text (value : String) : String :=
  let n0 := pyLower (pyStrip value)
  let n1 := pyReplace n0 "fixing income" "fixed income"
  let n2 := pyReplace n1 "m&a" " ma "
  let n3 := pyReplace n2 "m & a" " ma "
  let n4 := pyReplace n3 "mergers & acquisitions" " mergers acquisitions ma "
  let n5 := pyReplace n4 "mergers and acquisitions" " mergers acquisitions ma "
  let n6 := pyReplace n5 "investment banking division" " investment banking ibd "
  let n7 := pyReplace n6 "investment banking" " investment banking ibd "
  let n8 := pyReplace n7 "&" " and "
  let n9 := String.mk
    (n8.toList.map (fun c => if c.isLower || c.isDigit || pyIsWS c then c else ' '))
  pyCollapseWS n9

/-- contact_generation.canonicalize_search_keyword. -/
def canonicalize_search_keyword (keyword : String) : String :=
  let value := pyStrip keyword
  if value = "" then value
  else String.mk (canonFixingList value.toList)

/-- contact_generation.meaningful_company_tokens (a Python set, modelled as a
    first-occurrence-deduplicated list). -/
def meaningful_company_tokens (value : String) : List String :=
  dedupStr ((pyWords (normalize_lookup_text value)).filter
    (fun t => ¬ GENERIC_COMPANY_TOKENS.contains t ∧ 2 ≤ t.toList.length))

/-- contact_generation.company_acronym. -/
def company_acronym (value : String) : String :=
  let tokens := (pyWords (normalize_lookup_text value)).filter
    (fun t => 2 ≤ t.toList.length)
  if tokens.isEmpty then ""
  else if tokens.length = 1 ∧ (tokens.headD "").toList.length ≤ 6 then tokens.headD ""
  else String.mk (tokens.filterMap (fun t => t.toList.head?))

/-- domains.COMPANY_DOMAINS (association list in source insertion order). -/
def COMPANY_DOMAINS : List (String × String) := [
  ("goldman sachs", "gs.com"),
  ("blackrock", "blackrock.com"),
  ("morgan stanley", "morganstanley.com"),
  ("jpmorgan", "jpmorgan.com"),
  ("jp morgan", "jpmorgan.com"),
  ("j.p. morgan", "jpmorgan.com"),
  ("bank of america", "bankofamerica.com"),
  ("citigroup", "citi.com"),
  ("citi", "citi.com"),
  ("citadel", "citadel.com"),
  ("kkr", "kkr.com"),
  ("blackstone", "blackstone.com"),
  ("carlyle", "carlyle.com"),
  ("apollo", "apollo.com"),
  ("bain capital", "baincapital.com"),
  ("tpg", "tpg.com"),
  ("bridgewater", "bwater.com"),
  ("two sigma", "twosigma.com"),
  ("renaissance technologies", "rentec.com"),
  ("de shaw", "deshaw.com"),
  ("d.e. shaw", "deshaw.com"),
  ("point72", "point72.com"),
  ("millennium", "mlp.com"),
  ("balyasny", "bamfunds.com"),
  ("alliance bernstein", "alliancebernstein.com"),
  ("lazard", "lazard.com"),
  ("evercore", "evercore.com"),
  ("moelis", "moelis.com"),
  ("piper sandler", "pipersandler.com"),
  ("houlihan lokey", "hl.com"),
  ("jefferies", "jefferies.com"),
  ("raymond james", "raymondjames.com"),
  ("wells fargo", "wellsfargo.com"),
  ("ubs", "ubs.com"),
  ("credit suisse", "credit-suisse.com"),
  ("deutsche bank", "db.com"),
  ("barclays", "barclays.com"),
  ("hsbc", "hsbc.com"),
  ("nomura", "nomura.com"),
  ("mizuho", "mizuhogroup.com"),
  ("macquarie", "macquarie.com"),
  ("cowen", "cowen.com"),
  ("pimco", "pimco.com"),
  ("vanguard", "vanguard.com"),
  ("fidelity", "fidelity.com"),
  ("t. rowe price", "troweprice.com"),
  ("t rowe price", "troweprice.com"),
  ("wellington", "wellington.com"),
  ("neuberger berman", "nb.com"),
  ("nuveen", "nuveen.com"),
  ("invesco", "invesco.com"),
  ("franklin templeton", "franklintempleton.com"),
  ("legg mason", "leggmason.com"),
  ("harris associates", "harrisassoc.com"),
  ("advent international", "adventinternational.com"),
  ("warburg pincus", "warburgpincus.com"),
  ("general atlantic", "ga.com"),
  ("hellman friedman", "hf.com"),
  ("silver lake", "silverlake.com"),
  ("vista equity", "vistaequitypartners.com"),
  ("insight partners", "insightpartners.com"),
  ("tiger global", "tigerglobal.com"),
  ("coatue", "coatue.com")]

/-- Loop body of contact_generation.lookup_domain over the directory, keeping
    the best strictly-improving score, with an exact-match short-circuit. -/
def lookupLoop (cn : String) (ct : List String) :
    List (String × String) → Nat × Option String → Option String
  | [], best => if 120 ≤ best.1 then best.2 else none
  | (key, domain) :: rest, best =>
    let key_norm := normalize_lookup_text key
    if key_norm = "" then lookupLoop cn ct rest best
    else if cn = key_norm then some domain
    else
      let key_tokens := meaningful_company_tokens key
      let score1 :=
        if 4 ≤ cn.toList.length ∧ ¬ GENERIC_COMPANY_TOKENS.contains cn ∧
            (infixOfList key_norm.toList cn.toList || infixOfList cn.toList key_norm.toList) then
          300 + min cn.toList.length key_norm.toList.length
        else 0
      let overlap := interCard ct key_tokens
      let score2 :=
        if ¬ ct.isEmpty ∧ ¬ key_tokens.isEmpty ∧ overlap ≠ 0 then
          120 + overlap * 30 +
            (if subsetStr ct key_tokens || subsetStr key_tokens ct then 20 else 0)
        else 0
      let score := max score1 score2
      if best.1 < score then lookupLoop cn ct rest (score, some domain)
      else lookupLoop cn ct rest best

/-- contact_generation.lookup_domain. -/
def lookup_domain (company_name : String) : Option String :=
  let cn := normalize_lookup_text company_name
  if cn = "" then none
  else lookupLoop cn (meaningful_company_tokens company_name) COMPANY_DOMAINS (0, none)

/-- contact_generation.extract_company_from_role_text. -/
def extract_company_from_role_text (role_text : String) : String :=
  let role := pyStrip role_text
  if role = "" then ""
  else
    let role1 :=
      match atClauseGroup none role.toList with
      | some g => pyStrip (String.mk g)
      | none =>
        let hyphen_parts := ((pySplitOn role " - ").map pyStrip).filter (fun p => p ≠ "")
        if 2 ≤ hyphen_parts.length then hyphen_parts.getLastD "" else role
    let role2 := pyStrip ((pySplitAny ['|', '(', ',', ';', '/'] role1).headD "")
    if hasWBAny ["analyst", "associate", "vice president", "vp", "director",
        "managing director", "executive director", "intern", "researcher",
        "trader", "sales"] (pyLower role2) then ""
    else role2

/-- contact_generation.resolve_domain: first domain hit over the ordered
    candidate names. -/
def resolve_domain (raw_company normalized_company parsed_title full_result_title : String) :
    Option String :=
  [raw_company, normalized_company, extract_company_from_role_text parsed_title,
    full_result_title].findSome? lookup_domain

/-- Python `a or b` for strings ("" is falsy). -/
def pyOrStr (a b : String) : String := if a = "" then b else a

/-- Python `opt or b` where opt is str|None. -/
def pyOrOpt (a : Option String) (b : String) : String :=
  match a with
  | none => b
  | some s => pyOrStr s b

/-- contact_generation.format_display_company. -/
def format_display_company (parsed raw base : Option String) : String :=
  let clean1 := fun (c : Option String) =>
    match c with
    | none => none
    | some s =>
      if s = "" then none
      else
        let clean := pyStrip (pyReplace (pyReplace s "..." "") "…" "")
        if clean ≠ "" then some clean else none
  match [parsed, raw, base].findSome? clean1 with
  | some c => c
  | none => pyStrip (pyOrOpt raw (pyOrOpt base ""))

/-- contact_generation.clean_email_part. -/
def clean_email_part (raw_part : String) : String :=
  let normalized := pyReplace raw_part "’" "\x27"
  let cleaned := String.mk (normalized.toList.filter
    (fun c => c.isAlpha || c.isDigit || c = '-' || c = Char.ofNat 39))
  let cleaned2 := pyReplace cleaned "\x27" ""
  pyLower (pyStripChars ['-'] cleaned2)

/-- contact_generation.generate_email: "N/A" when the domain is falsy or a
    cleaned name part is empty, else first.last@domain lower-cased. -/
def generate_email (first last : String) (domain : Option String) : String :=
  match domain with
  | none => "N/A"
  | some d =>
    if d = "" then "N/A"
    else
      let first_clean := clean_email_part first
      let last_clean := clean_email_part last
      if first_clean = "" ∨ last_clean = "" then "N/A"
      else first_clean ++ "." ++ last_clean ++ "@" ++ pyLower d

/-- contact_generation.detect_seniority_level: first matching level pattern
    in fixed priority order, else "Unknown". -/
def detect_seniority_level (title : String) : String :=
  let t := pyLower title
  if hasWB "managing director" t || hasWB "md" t then "Managing Director"
  else if hasWB "executive director" t then "Executive Director"
  else if hasWB "vice president" t || hasWB "vp" t then "VP"
  else if hasWB "principal" t then "Director"
  else if hasWB "director" t then "Director"
  else if hasWB "associate" t then "Associate"
  else if hasWB "analyst" t then "Analyst"
  else "Unknown"

/-- Scan for the "ex[- ]" alternative of the former-role marker pattern:
    word-bounded "ex" followed by a hyphen or space that is itself followed
    by a word character (the trailing \b of the alternation group). -/
def exMarkerList : Option Char → List Char → Bool
  | _, [] => false
  | prev, c :: rest =>
    (leftBoundaryOk prev && c = 'e' &&
      (match rest with
       | x :: d :: n :: _ => x = 'x' && (d = '-' || d = ' ') && wordChar n
       | _ => false)) || exMarkerList (some c) rest

/-- contact_generation.title_has_intern_or_nonfulltime_markers. -/
def title_has_intern_or_nonfulltime_markers (title : Option String) : Bool :=
  let t := pyLower (title.getD "")
  hasWB "intern" t || hasWB "internship" t || hasWB "summer analyst" t ||
    hasWB "summer associate" t || hasWB "incoming" t ||
    hasWB "off-cycle" t || hasWB "off cycle" t

/-- contact_generation.title_has_former_markers. -/
def title_has_former_markers (title : Option String) : Bool :=
  let t := pyLower (title.getD "")
  hasWB "former" t || hasWB "previously" t || hasWB "prev" t ||
    hasWB "previous" t || exMarkerList none t.toList || hasWB "past" t

/-- contact_generation.ordered_selected_seniority_levels: the UI-ordered
    selected levels first, then any other selected levels in input order,
    deduplicated. -/
def ordered_selected_seniority_levels (levels : List String) : List String :=
  let phase1 := SENIORITY_UI_ORDER.filter (fun l => levels.contains l)
  let phase2 := levels.foldl
    (fun acc l => if (phase1 ++ acc).contains l then acc else acc ++ [l]) []
  phase1 ++ phase2

/-- contact_generation.seniority_priority_key. -/
def seniority_priority_key (level : Option String) : Nat :=
  match level with
  | none => 999
  | some l => if l = "" then 999 else (SENIORITY_ORDER_INDEX.lookup l).getD 999

/-- One level's SENIORITY_LABEL_REGEX pattern applied to lower-cased text
    (levels without a pattern entry never match). -/
def seniorityLabelMatch (level : String) (text : String) : Bool :=
  if level = "Analyst" then hasWB "analyst" text
  else if level = "Associate" then hasWB "associate" text
  else if level = "VP" then hasWB "vice president" text || hasWB "vp" text
  else if level = "Director" then hasWB "director" text || hasWB "principal" text
  else if level = "Executive Director" then hasWB "executive director" text
  else if level = "Managing Director" then hasWB "managing director" text || hasWB "md" text
  else false

/-- contact_generation.title_mentions_selected_seniority. -/
def title_mentions_selected_seniority (title : Option String) (target_levels : List String) :
    Bool :=
  let text := pyLower (title.getD "")
  if text = "" then false
  else (ordered_selected_seniority_levels target_levels).any
    (fun l => seniorityLabelMatch l text)

/-- contact_generation.JobContextLike. -/
structure JobContextLike where
  job_name : String
  company : String
  city : Option String := none
  jd_text : Option String := none
  extracted_keywords : Option (List String) := none

/-- Python truthiness for an optional string (None and "" are falsy). -/
def pyTruthyOpt (o : Option String) : Bool := o.getD "" ≠ ""

/-- Descending order on (fractional-remainder numerator, -index), i.e.
    sorted(..., key=(remainder, -idx), reverse=True): larger remainder first,
    ties broken by smaller index (more junior level first).  Remainders are
    compared by their numerators, all sharing the denominator weight_sum. -/
def remainderBefore (a b : Nat × Nat) : Prop :=
  b.1 < a.1 ∨ (a.1 = b.1 ∧ a.2 ≤ b.2)

instance : DecidableRel remainderBefore := fun a b => by
  unfold remainderBefore
  infer_instance

/-- contact_generation.allocate_seniority_quotas: weighted largest-remainder
    apportionment.  The source computes exact shares as Python floats
    total_slots * (w / weight_sum) and floors them with int(); the model
    computes the floor exactly as natural division total * w / weight_sum
    (and compares fractional remainders by their numerators
    total * w % weight_sum over the common denominator weight_sum). -/
def allocate_seniority_quotas (target_levels : List String) (total_slots : Int) :
    List (String × Nat) :=
  let selected := ordered_selected_seniority_levels target_levels
  if total_slots ≤ 0 ∨ selected.isEmpty then []
  else
    let total := total_slots.toNat
    let weights := selected.map
      (fun l => (SENIORITY_DISTRIBUTION_WEIGHTS.lookup l).getD 1)
    let weight_sum := if weights.sum = 0 then selected.length else weights.sum
    let quotas := weights.map (fun w => total * w / weight_sum)
    let assigned := quotas.sum
    let remainders := weights.enum.map (fun p => (total * p.2 % weight_sum, p.1))
    let sortedRem := remainders.insertionSort remainderBefore
    let final := sortedRem.foldl
      (fun (st : List Nat × Nat) p =>
        if total ≤ st.2 then st
        else (st.1.set p.2 (st.1.getD p.2 0 + 1), st.2 + 1))
      (quotas, assigned)
    selected.zip final.1

/-- The raw_data diagnostics bundle attached to each candidate row by
    generate_contacts. -/
structure RawData where
  fit_score : Int
  fit_reasons : List String
  query : String
  query_keyword : String
  result_title : Option String
  target_level : String
  detected_level : String
  seniority_reason : String
  school_target : Option String
  base_company : String
  current_company_reasons : List String
  custom_keyword_hit : Option String
  custom_keyword_score : Int
  snippet : Option String
deriving Repr, DecidableEq

/-- A candidate row dict as built by generate_contacts. -/
structure Row where
  full_name : String
  first_name : Option String
  last_name : Option String
  title : Option String
  company : String
  city : String
  school : Option String
  linkedin_url : Option String
  email : String
  source_tag : String
  raw_data : RawData
deriving Repr, DecidableEq

/-- contact_generation.fit_score_from_row: int(raw_data.get("fit_score") or 0);
    with fit_score always an int in the model, `x or 0` is the identity. -/
def fit_score_from_row (row : Row) : Int := row.raw_data.fit_score

/-- contact_generation.candidate_row_identity. -/
def candidate_row_identity (row : Row) : String :=
  let email := pyLower (pyStrip row.email)
  if email ≠ "" ∧ email ≠ "n/a" then "email:" ++ email
  else
    let url := pyLower (pyStrip (row.linkedin_url.getD ""))
    if url ≠ "" then "url:" ++ url
    else
      "name:" ++ pyJoin "|" [pyLower (pyStrip row.full_name),
        pyLower (pyStrip row.company), pyLower (pyStrip (row.title.getD ""))]

/-- Code-point lexicographic strict comparison of char lists (Python string
    comparison). -/
def charListLt : List Char → List Char → Bool
  | [], [] => false
  | [], _ :: _ => true
  | _ :: _, [] => false
  | a :: as, b :: bs =>
    if a.toNat < b.toNat then true
    else if b.toNat < a.toNat then false
    else charListLt as bs

/-- Python string `<`. -/
def pyStrLt (a b : String) : Bool := charListLt a.toList b.toList

/-- Python string `<=`. -/
def pyStrLe (a b : String) : Bool := ¬ pyStrLt b a

/-- str((row.get("raw_data") or {}).get("detected_level") or "Unknown"). -/
def rowDetected (row : Row) : String := pyOrStr row.raw_data.detected_level "Unknown"

/-- Ascending order on key (-fit_score, full_name): higher score first, names
    ascending on ties (Python sorted is stable; so is insertionSort). -/
def rowSortLe (a b : Row) : Prop :=
  fit_score_from_row b < fit_score_from_row a ∨
    (fit_score_from_row a = fit_score_from_row b ∧ pyStrLe a.full_name b.full_name = true)

instance : DecidableRel rowSortLe := fun a b => by
  unfold rowSortLe
  infer_instance

/-- Ascending order on key (seniority priority index, -fit_score, full_name)
    used for the final re-sort inside prioritize_company_rows. -/
def rowFinalLe (a b : Row) : Prop :=
  let pa := seniority_priority_key (some a.raw_data.detected_level)
  let pb := seniority_priority_key (some b.raw_data.detected_level)
  pa < pb ∨ (pa = pb ∧ (fit_score_from_row b < fit_score_from_row a ∨
    (fit_score_from_row a = fit_score_from_row b ∧ pyStrLe a.full_name b.full_name = true)))

instance : DecidableRel rowFinalLe := fun a b => by
  unfold rowFinalLe
  infer_instance

/-- Quota-limited picking loop of prioritize_company_rows (one level group):
    stops once the overall cap or the level quota is exhausted, skips rows
    whose identity key was already picked. -/
def pickLoop (maxN : Int) : List Row → List Row × List String × Int →
    List Row × List String × Int
  | [], st => st
  | row :: rest, (picked, ids, quota) =>
    if maxN ≤ (picked.length : Int) ∨ quota ≤ 0 then (picked, ids, quota)
    else
      let key := candidate_row_identity row
      if ids.contains key then pickLoop maxN rest (picked, ids, quota)
      else pickLoop maxN rest (picked ++ [row], ids ++ [key], quota - 1)

/-- Backfill picking loop (no per-level quota): stops at the overall cap,
    skips identity keys already picked. -/
def pickAll (maxN : Int) : List Row → List Row × List String →
    List Row × List String
  | [], st => st
  | row :: rest, (picked, ids) =>
    if maxN ≤ (picked.length : Int) then (picked, ids)
    else
      let key := candidate_row_identity row
      if ids.contains key then pickAll maxN rest (picked, ids)
      else pickAll maxN rest (picked ++ [row], ids ++ [key])

/-- contact_generation.prioritize_company_rows. -/
def prioritize_company_rows (rows : List Row) (target_levels : List String)
    (max_per_company : Int) : List Row :=
  if max_per_company ≤ 0 ∨ rows.isEmpty then []
  else
    let selected_levels := ordered_selected_seniority_levels target_levels
    if selected_levels.isEmpty then
      (rows.insertionSort rowSortLe).take max_per_company.toNat
    else
      let grouped := fun l =>
        (rows.filter (fun r => rowDetected r = l)).insertionSort rowSortLe
      let unknown_rows :=
        ((rows.filter (fun r => ¬ selected_levels.contains (rowDetected r) ∧
          rowDetected r = "Unknown")).insertionSort rowSortLe)
      let extra_rows :=
        ((rows.filter (fun r => ¬ selected_levels.contains (rowDetected r) ∧
          rowDetected r ≠ "Unknown")).insertionSort rowSortLe)
      let quotas := allocate_seniority_quotas selected_levels max_per_company
      let st1 := selected_levels.foldl
        (fun (st : List Row × List String) level =>
          let quota : Int := ((quotas.lookup level).getD 0 : Nat)
          if quota ≤ 0 then st
          else
            let r := pickLoop max_per_company (grouped level) (st.1, st.2, quota)
            (r.1, r.2.1))
        ([], [])
      let st2 :=
        if (st1.1.length : Int) < max_per_company then
          selected_levels.foldl (fun st level => pickAll max_per_company (grouped level) st) st1
        else st1
      let st3 :=
        if (st2.1.length : Int) < max_per_company then
          pickAll max_per_company (unknown_rows ++ extra_rows) st2
        else st2
      (st3.1.insertionSort rowFinalLe).take max_per_company.toNat

/-- Python str.upper, character-wise. -/
def pyUpper (s : String) : String := String.mk (s.toList.map Char.toUpper)

/-- The seniority-word alternation of keyword_variants' re.sub, in source
    alternation order. -/
def seniorityAlts : List (List Char) :=
  ["analyst".toList, "associate".toList, "vice president".toList, "vp".toList,
   "director".toList, "executive director".toList, "managing director".toList,
   "md".toList]

/-- contact_generation.text_tokens: re.findall(r"[a-z0-9]+") over the
    lower-cased text, keeping tokens of length ≥ min_len outside
    GENERIC_ROLE_TOKENS (a Python set, modelled deduplicated). -/
def text_tokens (value : String) (min_len : Nat) : List String :=
  dedupStr (((runsOf (fun c => c.isLower || c.isDigit) (pyLower value).toList).map
    String.mk).filter
    (fun t => min_len ≤ t.toList.length ∧ ¬ GENERIC_ROLE_TOKENS.contains t))

/-- contact_generation.keyword_variants. -/
def keyword_variants (value : String) : List String :=
  let raw := pyStrip value
  if raw = "" then []
  else
    let out0 := [canonicalize_search_keyword raw]
    let parts := ((pySplitAny [';', ','] raw).map pyStrip).filter (fun p => p ≠ "")
    let out1 := out0 ++ parts.map canonicalize_search_keyword
    let slash_parts := ((pySplitAny ['/'] raw).map pyStrip).filter (fun p => p ≠ "")
    let out2 := out1 ++ slash_parts.map canonicalize_search_keyword
    let no_level := pyStripChars [' ', ',', '-', '/']
      (pyCollapseWS (String.mk (replaceWBAlts seniorityAlts raw.toList)))
    let out3 := out2 ++
      (if no_level ≠ "" ∧ pyLower no_level ≠ pyLower raw then
        [canonicalize_search_keyword no_level]
      else [])
    let tokens := (pySplitAny ['/', ',', '-'] raw).map pyStrip
    let out4 := out3 ++ tokens.filterMap (fun t =>
      if t.toList.length < 3 ∧ ¬ SHORT_DESK_TOKENS.contains (pyLower t) then none
      else if ["analyst", "associate", "vp", "director"].contains (pyLower t) then none
      else some (canonicalize_search_keyword t))
    let out5 := out4 ++ (pyWords (normalize_lookup_text raw)).filterMap
      (fun tok =>
        if SHORT_DESK_TOKENS.contains tok then
          some (if tok = "ma" then "M&A" else pyUpper tok)
        else none)
    let genericNorms := GENERIC_KEYWORD_VARIANTS.map normalize_lookup_text
    (out5.foldl
      (fun (acc : List String × List String) item =>
        let v := pyStrip item
        if v = "" then acc
        else if genericNorms.contains (normalize_lookup_text v) then acc
        else if acc.2.contains (pyLower v) then acc
        else (acc.1 ++ [v], acc.2 ++ [pyLower v]))
      ([], [])).1

/-- Count of non-stopword normalized tokens of a keyword (the specificity
    component of final_keywords' sort key). -/
def kwSpecificCount (v : String) : Nat :=
  ((pyWords (normalize_lookup_text v)).filter
    (fun t => ¬ GROUP_MATCH_STOPWORDS.contains t)).length

/-- Ascending order on key (-specific token count, -length): more specific,
    then longer, keywords first. -/
def kwSortLe (a b : String) : Prop :=
  kwSpecificCount b < kwSpecificCount a ∨
    (kwSpecificCount a = kwSpecificCount b ∧ b.toList.length ≤ a.toList.length)

instance : DecidableRel kwSortLe := fun a b => by
  unfold kwSortLe
  infer_instance

/-- The engine's Filters mapping (dict .get with falsy-default semantics:
    a missing key and an empty list behave alike). -/
structure Filters where
  companies : List String := []
  selected_cities : List String := []
  selected_schools : List String := []
  max_per_company : Option Int := none
  seniority_levels : List String := []
  custom_keywords : List String := []
  front_office_keywords : List String := []
  hr_keywords : List String := []

/-- contact_generation.final_keywords. -/
def final_keywords (filters : Filters) (job_context : JobContextLike) : List String :=
  let combined := filters.custom_keywords ++ filters.front_office_keywords ++
    filters.hr_keywords
  let combined :=
    if combined.isEmpty then job_context.extracted_keywords.getD [] else combined
  let deduped := (combined.foldl
    (fun (acc : List String × List String) item =>
      let value := pyStrip item
      if value = "" then acc
      else
        (keyword_variants value).foldl
          (fun (acc2 : List String × List String) variant =>
            let lower := pyLower variant
            if acc2.2.contains lower then acc2
            else (acc2.1 ++ [variant], acc2.2 ++ [lower]))
          acc)
    ([], [])).1
  deduped.insertionSort kwSortLe

/-- contact_generation.companies_likely_match. -/
def companies_likely_match (a b : String) : Bool :=
  let a_norm := normalize_lookup_text a
  let b_norm := normalize_lookup_text b
  if a_norm = "" ∨ b_norm = "" then false
  else if a_norm = b_norm then true
  else if company_acronym a ≠ "" ∧ company_acronym a = company_acronym b then true
  else
    let a_all := dedupStr (pyWords a_norm)
    let b_all := dedupStr (pyWords b_norm)
    let a_tokens := meaningful_company_tokens a
    let b_tokens := meaningful_company_tokens b
    if a_tokens.isEmpty ∨ b_tokens.isEmpty then false
    else
      let overlap := interCard a_tokens b_tokens
      if overlap = 0 then false
      else
        let guardRejects :=
          if min a_tokens.length b_tokens.length = 1 then
            let single := if a_tokens.length = 1 then a_tokens.headD "" else b_tokens.headD ""
            if single.toList.length ≤ 4 ∧ a_norm ≠ b_norm then
              let extra_a := (a_all.filter (fun t => ¬ b_all.contains t)).filter
                (fun t => ¬ GENERIC_COMPANY_TOKENS.contains t)
              let extra_b := (b_all.filter (fun t => ¬ a_all.contains t)).filter
                (fun t => ¬ GENERIC_COMPANY_TOKENS.contains t)
              ¬ extra_a.isEmpty ∨ ¬ extra_b.isEmpty
            else False
          else False
        if guardRejects then false
        else subsetStr a_tokens b_tokens || subsetStr b_tokens a_tokens ||
          decide (min a_tokens.length b_tokens.length ≤ overlap)

/-- contact_generation.keyword_phrase_match_score. -/
def keyword_phrase_match_score (keyword : String) (title : String) :
    Nat × Nat × List String :=
  let kw_norm := normalize_lookup_text keyword
  let title_norm := normalize_lookup_text title
  if kw_norm = "" ∨ title_norm = "" then (0, 0, [])
  else if infixOfList kw_norm.toList title_norm.toList then
    let kw_tokens := dedupStr ((pyWords kw_norm).filter
      (fun t => t ≠ "" ∧ ¬ GROUP_MATCH_STOPWORDS.contains t))
    (100, max kw_tokens.length 1, kw_tokens)
  else
    let kw_tokens := dedupStr ((pyWords kw_norm).filter
      (fun t => t ≠ "" ∧ ¬ GROUP_MATCH_STOPWORDS.contains t ∧ 3 ≤ t.toList.length))
    let title_tokens := dedupStr (pyWords title_norm)
    let overlap := kw_tokens.filter (fun t => title_tokens.contains t)
    if kw_tokens.isEmpty then (0, 0, [])
    else if overlap.isEmpty then (0, 0, [])
    else (50 + min 35 (overlap.length * 15), overlap.length, overlap)

/-- contact_generation.best_keyword_match: highest score, ties by larger
    overlap count, earlier keyword wins otherwise. -/
def best_keyword_match (keywords : List String) (title : String) :
    Option String × Nat × Nat :=
  keywords.foldl
    (fun (acc : Option String × Nat × Nat) kw =>
      let r := keyword_phrase_match_score kw title
      if acc.2.1 < r.1 ∨ (r.1 = acc.2.1 ∧ acc.2.2 < r.2.1) then (some kw, r.1, r.2.1)
      else acc)
    (none, 0, 0)

/-- Scan for r"\bex[- ]" (no trailing boundary): word-bounded "ex" followed
    by a hyphen or space. -/
def exMarkerLooseList : Option Char → List Char → Bool
  | _, [] => false
  | prev, c :: rest =>
    (leftBoundaryOk prev && c = 'e' &&
      (match rest with
       | x :: d :: _ => x = 'x' && (d = '-' || d = ' ')
       | _ => false)) || exMarkerLooseList (some c) rest

/-- contact_generation.looks_like_current_role_at_target: returns
    (accepted, resolved company, reasons). -/
def looks_like_current_role_at_target (role_company_text : Option String)
    (target_company : String) (snippet : Option String) (precision_mode : String) :
    Bool × Option String × List String :=
  let title := pyStrip (role_company_text.getD "")
  let parsed_company := extract_company_from_role_text title
  let parsedOpt : Option String := if parsed_company = "" then none else some parsed_company
  let snippet_text := pyStrip (snippet.getD "")
  let title_has_at := containsSub (pyLower title) " at "
  let title_company_match := parsed_company ≠ "" ∧
    companies_likely_match parsed_company target_company
  let loose_title_company_match :=
    if title ≠ "" then companies_likely_match title target_company else false
  let snippet_company_match :=
    if snippet_text ≠ "" then companies_likely_match snippet_text target_company
    else false
  let modeReject : Option (List String) :=
    if precision_mode = "strict" then
      if title = "" ∨ ¬ title_has_at then
        some ["Missing explicit 'at Company' pattern in LinkedIn title."]
      else if ¬ title_company_match then
        some ["Current role company does not match target company (" ++
          target_company ++ ")."]
      else none
    else if precision_mode = "balanced" then
      if title = "" then some ["Missing LinkedIn role/company text."]
      else if ¬ (title_company_match ∨ (title_has_at ∧ loose_title_company_match)) then
        some ["Could not verify current role at target company (" ++
          target_company ++ ")."]
      else none
    else
      if title = "" then some ["Missing LinkedIn role/company text."]
      else if ¬ (title_company_match ∨ loose_title_company_match ∨
          snippet_company_match) then
        some ["Could not verify company match for target (" ++ target_company ++ ")."]
      else none
  match modeReject with
  | some rs => (false, parsedOpt, rs)
  | none =>
    let primary_segment := pyStrip ((pySplitOn title "|").headD "")
    if title_has_former_markers (some primary_segment) then
      (false, parsedOpt, ["LinkedIn title appears to describe a former role."])
    else if title_has_intern_or_nonfulltime_markers (some primary_segment) then
      (false, parsedOpt, ["LinkedIn title appears to be intern/non-full-time."])
    else
      let snippet_lower := pyLower snippet_text
      let reasons :=
        if snippet_lower ≠ "" ∧ (hasWB "former" snippet_lower ∨
            hasWB "previously" snippet_lower ∨
            exMarkerLooseList none snippet_lower.toList) then
          ["Google snippet includes prior-role markers (soft warning)."]
        else []
      let resolved_company : Option String :=
        if parsed_company ≠ "" ∧ companies_likely_match parsed_company target_company then
          some parsed_company
        else if loose_title_company_match ∨ snippet_company_match then
          some target_company
        else none
      (true, resolved_company, reasons)

/-- contact_generation.seniority_match_for_mode: returns (ok, reason). -/
def seniority_match_for_mode (detected_level : String) (target_levels : List String)
    (title_text : Option String) (precision_mode : String) : Bool × String :=
  let targets := target_levels.filter (fun t => t ≠ "")
  if targets.isEmpty then (true, "No seniority filter provided.")
  else if detected_level = "" ∨ detected_level = "Unknown" then
    let title_l := pyLower (title_text.getD "")
    if hasWBAny ["managing director", "executive director", "vice president", "vp",
        "director", "principal", "partner", "head"] title_l then
      (false, "Title text indicates higher seniority than selected levels.")
    else if title_mentions_selected_seniority title_text targets then
      (true, "Title text includes selected seniority markers.")
    else if precision_mode = "strict" then
      (false, "Could not confidently detect seniority from title.")
    else (false, "Could not verify seniority level from title.")
  else if targets.contains detected_level then
    (true, "Detected level " ++ detected_level ++ " matches selected seniority.")
  else
    let joined := pyJoin ", " targets
    if subsetStr (dedupStr targets) ["Analyst", "Associate"] then
      (false, "Detected level " ++ detected_level ++
        " is outside selected seniority (" ++ joined ++ ").")
    else if precision_mode = "search" ∧ detected_level = "Unknown" then
      (true, "Unknown detected level allowed in search mode.")
    else
      (false, "Detected level " ++ detected_level ++
        " is outside selected seniority (" ++ joined ++ ").")

/-- contact_generation.compute_fit_score: weighted signal accumulation with a
    final clamp to [0, 100] and reasons deduplicated and capped at 4. -/
def compute_fit_score (job_context : JobContextLike)
    (target_company result_company result_title : String)
    (result_city : Option String) (detected_level : String)
    (target_levels : List String) (keyword_hit custom_keyword_hit : Option String)
    (custom_keyword_score : Int) (school_target : Option String)
    (email : Option String) (current_company_confirmed : Bool) :
    Int × List String :=
  let s0 : Int := 18
  let r0 : List String := []
  let p1 :=
    if companies_likely_match result_company target_company then
      (s0 + 30, r0 ++ ["Company match with target employer (" ++ target_company ++ ")."])
    else (s0, r0)
  let p2 :=
    if current_company_confirmed then
      (p1.1 + 22, p1.2 ++ ["LinkedIn title indicates current role at target company."])
    else (p1.1, p1.2)
  let p3 :=
    if pyTruthyOpt job_context.city ∧ pyTruthyOpt result_city then
      let job_city := pyLower (pyStrip
        ((pySplitOn (job_context.city.getD "") ",").headD ""))
      let cand_city := pyLower (pyStrip
        ((pySplitOn (result_city.getD "") ",").headD ""))
      if job_city ≠ "" ∧ cand_city ≠ "" ∧ (job_city = cand_city ∨
          infixOfList job_city.toList cand_city.toList ∨
          infixOfList cand_city.toList job_city.toList) then
        (p2.1 + 20, p2.2 ++ ["Location alignment (" ++ result_city.getD "" ++ ")."])
      else (p2.1, p2.2)
    else (p2.1, p2.2)
  let p4 :=
    if detected_level ≠ "" ∧ detected_level ≠ "Unknown" then
      if target_levels.contains detected_level then
        (p3.1 + 5, p3.2 ++ ["Detected seniority matches your target (" ++
          detected_level ++ ")."])
      else
        (p3.1 - 35, p3.2 ++ ["Detected seniority (" ++ detected_level ++
          ") is outside your selected levels."])
    else (p3.1 - 10, p3.2)
  let p5 :=
    if pyTruthyOpt keyword_hit ∧ keyword_hit ≠ custom_keyword_hit then
      (p4.1 + 8, p4.2 ++ ["Matched search keyword: " ++ keyword_hit.getD "" ++ "."])
    else (p4.1, p4.2)
  let p6 :=
    if pyTruthyOpt custom_keyword_hit ∧ 50 ≤ custom_keyword_score then
      let s := p5.1 + min 40 (18 + Int.fdiv custom_keyword_score 4)
      let r := p5.2 ++ ["Title overlaps strongly with job title keyword: " ++
        custom_keyword_hit.getD "" ++ "."]
      if 100 ≤ custom_keyword_score then
        (s + 12, r ++ ["Strong exact phrase match on job title keyword."])
      else (s, r)
    else if pyTruthyOpt custom_keyword_hit ∧ 20 ≤ custom_keyword_score then
      (p5.1 + min 16 (6 + Int.fdiv custom_keyword_score 4),
        p5.2 ++ ["Partial title overlap with job title keyword: " ++
          custom_keyword_hit.getD "" ++ "."])
    else
      (p5.1 - 24, p5.2 ++ ["Weak title overlap with requested job title keywords."])
  let title_tokens := text_tokens result_title 3
  let job_tokens := text_tokens job_context.job_name 3
  let jd_tokens := (job_context.extracted_keywords.getD []).foldl
    (fun acc kw => acc ++ (text_tokens kw 2).filter (fun t => ¬ acc.contains t)) []
  let job_overlap := interCard title_tokens job_tokens
  let jd_overlap := interCard title_tokens jd_tokens
  let p7 :=
    if job_overlap ≠ 0 then
      (p6.1 + min 18 (8 + (job_overlap : Int) * 3),
        p6.2 ++ ["Title overlaps with the target job title."])
    else if jd_overlap ≠ 0 then
      (p6.1 + min 10 (4 + (jd_overlap : Int) * 2),
        p6.2 ++ ["Title overlaps with extracted JD keywords."])
    else (p6.1, p6.2)
  let p8 :=
    if pyTruthyOpt school_target then
      (p7.1 + 7, p7.2 ++ ["Matched school filter (" ++ school_target.getD "" ++ ")."])
    else (p7.1, p7.2)
  let p9 :=
    if pyTruthyOpt email ∧ email ≠ some "N/A" then
      (p8.1 + 4, p8.2 ++ ["Predicted corporate email available."])
    else (p8.1, p8.2)
  let title_lower := pyLower result_title
  let p10 :=
    if title_has_intern_or_nonfulltime_markers (some title_lower) then
      (p9.1 - 35, p9.2 ++ ["Intern/non-full-time title (de-prioritized)."])
    else (p9.1, p9.2)
  let p11 :=
    if ["recruit", "talent acquisition", "early careers", "campus"].any
        (fun term => containsSub title_lower term) then
      (p10.1 + 5, p10.2 ++ ["Recruiting-facing title may be high leverage for outreach."])
    else (p10.1, p10.2)
  let score := max 0 (min 100 p11.1)
  let deduped := (p11.2.foldl
    (fun (acc : List String × List String) reason =>
      if acc.2.contains reason then acc
      else (acc.1 ++ [reason], acc.2 ++ [reason]))
    ([], [])).1
  (score, deduped.take 4)

/-- One entry of the external search response's "organic_results" list (only
    the fields the pipeline reads). -/
structure OrganicItem where
  link : String := ""
  title : String := ""
  snippet : Option String := none
deriving Repr, DecidableEq

/-- The HTTP response of the search provider: a status code and the parsed
    organic results. -/
structure HttpResponse where
  status : Nat
  organic_results : List OrganicItem
deriving Repr, DecidableEq

/-- One filtered search hit as returned by search_client.google_search. -/
structure SearchResult where
  title : String
  url : String
  raw : OrganicItem
deriving Repr, DecidableEq

/-- The exceptions search_client.google_search can raise: ValueError on a
    missing credential, and requests' HTTPError from raise_for_status on an
    error status (4xx/5xx). -/
inductive SearchError where
  | missingKey
  | httpError (status : Nat)
deriving Repr, DecidableEq

/-- search_client.google_search, with the network modelled by `fetch`
    (query, num, api_key) ↦ response.  Raises (returns .error) when the
    api_key is falsy or the response status is an error status; otherwise
    returns the organic results whose link contains "linkedin.com/in". -/
def google_search (query : String) (api_key : String) (num : Nat)
    (fetch : String → Nat → String → HttpResponse) :
    Except SearchError (List SearchResult) :=
  if api_key = "" then .error .missingKey
  else
    let response := fetch query num api_key
    if 400 ≤ response.status then .error (.httpError response.status)
    else
      .ok ((response.organic_results.filter
        (fun item => containsSub item.link "linkedin.com/in")).map
        (fun item => { title := item.title, url := item.link, raw := item }))

/-- generate_contacts' seniority-level default:
    filters.get("seniority_levels") or ["Analyst", "Associate"]. -/
def engineLevels (filters : Filters) : List String :=
  if filters.seniority_levels.isEmpty then ["Analyst", "Associate"]
  else filters.seniority_levels

/-- generate_contacts' level_filters: `levels if levels else [""]`. -/
def engineLevelFilters (levels : List String) : List String :=
  if levels.isEmpty then [""] else levels

/-- The optional level clause of a query:
    f" {SENIORITY_QUERY_MAP.get(level_filter, level_filter)}" if level_filter
    else "". -/
def queryLevelClause (level_filter : String) : String :=
  if level_filter = "" then ""
  else " " ++ ((SENIORITY_QUERY_MAP.lookup level_filter).getD level_filter)

/-- The query string generate_contacts builds for one
    (keyword, level, company, city) combination. -/
def buildQuery (keyword level_filter raw_company city_short : String) : String :=
  "site:linkedin.com/in " ++ canonicalize_search_keyword keyword ++
    queryLevelClause level_filter ++ " " ++ raw_company ++ " \x22" ++
    city_short ++ "\x22"

/-- generate_contacts' engine-wide result record. -/
structure ContactGenResult where
  rows : List Row
  query_count : Nat
deriving Repr, DecidableEq

/-- The read-only context threaded through generate_contacts' loops. -/
structure EngineCtx where
  fetch : String → Nat → String → HttpResponse
  serpapi_key : String
  job_context : JobContextLike
  levels : List String
  keywords : List String
  selected_schools : List String
  gather_limit : Int

/-- The per-search-result body of generate_contacts' innermost loop: parse,
    filter (current-role and seniority), score, deduplicate against the
    cross-run key set, and append the built row to the company pool.
    State: (company pool, gathered count, seen key set). -/
def processResult (ctx : EngineCtx) (raw_company base_company city query keyword
    level_filter : String) (st : List Row × Nat × List String)
    (result : SearchResult) : List Row × Nat × List String :=
  let cands := st.1
  let gathered := st.2.1
  let seen := st.2.2
  if ctx.gather_limit ≤ (gathered : Int) then st
  else
    let parsed := parse_title result.title
    let raw_name := parsed.1
    let role_company_text := parsed.2
    let snippet := result.raw.snippet
    let cleaned := clean_full_name raw_name
    let full_name := cleaned.1
    let first := cleaned.2.1
    let last := cleaned.2.2
    let detected_level := detect_seniority_level role_company_text
    let cur := looks_like_current_role_at_target (some role_company_text)
      raw_company snippet "search"
    if ¬ cur.1 then st
    else
      let sen := seniority_match_for_mode detected_level
        (ctx.levels.filter (fun l => l ≠ "")) (some role_company_text) "search"
      if ¬ sen.1 then st
      else
        let title_plus_context := pyStrip
          (pyJoin " " [role_company_text, snippet.getD ""])
        let bk := best_keyword_match ctx.keywords title_plus_context
        let effective_keyword_hit : Option String :=
          if 20 ≤ bk.2.1 then bk.1 else some keyword
        let domain := resolve_domain raw_company base_company role_company_text
          result.title
        let email := generate_email first last domain
        let actual_city := pyOrStr (extract_city (snippet.getD "")) city
        let matched_school : Option String :=
          if ¬ ctx.selected_schools.isEmpty then
            let blob_norm := normalize_lookup_text
              (pyJoin " " [role_company_text, snippet.getD ""])
            ctx.selected_schools.findSome? (fun school =>
              let school_norm := normalize_lookup_text school
              if school_norm ≠ "" ∧ infixOfList school_norm.toList blob_norm.toList
              then some school else none)
          else none
        let fit := compute_fit_score ctx.job_context
          (pyOrStr ctx.job_context.company raw_company)
          (pyOrOpt cur.2.1 (pyOrStr (pyStrip raw_company) base_company))
          role_company_text (some actual_city) detected_level
          (ctx.levels.filter (fun l => l ≠ "")) effective_keyword_hit none 0
          matched_school (some email) true
        let unique_key :=
          if email ≠ "N/A" then pyLower email
          else pyLower (first ++ "|" ++ last ++ "|" ++ raw_company ++ "|" ++ result.url)
        if seen.contains unique_key then st
        else
          let display_company := format_display_company cur.2.1
            (some (pyStrip raw_company)) (some base_company)
          let row : Row := {
            full_name := full_name
            first_name := if first = "" then none else some first
            last_name := if last = "" then none else some last
            title := if role_company_text = "" then none else some role_company_text
            company := display_company
            city := actual_city
            school := matched_school
            linkedin_url := some result.url
            email := email
            source_tag := keyword
            raw_data := {
              fit_score := fit.1
              fit_reasons := fit.2
              query := query
              query_keyword := keyword
              result_title := some result.title
              target_level := level_filter
              detected_level := detected_level
              seniority_reason := sen.2
              school_target := matched_school
              base_company := base_company
              current_company_reasons := cur.2.2
              custom_keyword_hit := none
              custom_keyword_score := 0
              snippet := snippet } }
          (cands ++ [row], gathered + 1, seen ++ [unique_key])

/-- One (keyword, level) query of generate_contacts: count it, run the
    search (propagating its exception), process each hit.
    State: (company pool, gathered, seen keys, query count). -/
def processQuery (ctx : EngineCtx) (raw_company base_company city city_short
    keyword : String) (st : List Row × Nat × List String × Nat)
    (level_filter : String) :
    Except SearchError (List Row × Nat × List String × Nat) :=
  let cands := st.1
  let gathered := st.2.1
  let seen := st.2.2.1
  let qc := st.2.2.2
  if ctx.gather_limit ≤ (gathered : Int) then .ok st
  else
    let query := buildQuery keyword level_filter raw_company city_short
    match google_search query ctx.serpapi_key 8 ctx.fetch with
    | .error e => .error e
    | .ok results =>
      let r := results.foldl
        (processResult ctx raw_company base_company city query keyword level_filter)
        (cands, gathered, seen)
      .ok (r.1, r.2.1, r.2.2, qc + 1)

/-- The keyword loop of generate_contacts for one city. -/
def processKeyword (ctx : EngineCtx) (raw_company base_company city city_short :
    String) (level_filters : List String) (st : List Row × Nat × List String × Nat)
    (keyword : String) :
    Except SearchError (List Row × Nat × List String × Nat) :=
  if ctx.gather_limit ≤ (st.2.1 : Int) then .ok st
  else level_filters.foldlM
    (processQuery ctx raw_company base_company city city_short keyword) st

/-- The city loop of generate_contacts for one company. -/
def processCity (ctx : EngineCtx) (raw_company base_company : String)
    (level_filters : List String) (st : List Row × Nat × List String × Nat)
    (city : String) :
    Except SearchError (List Row × Nat × List String × Nat) :=
  if ctx.gather_limit ≤ (st.2.1 : Int) then .ok st
  else
    let city_short := pyStrip ((pySplitOn city ",").headD "")
    ctx.keywords.foldlM
      (processKeyword ctx raw_company base_company city city_short level_filters) st

/-- One company of generate_contacts: gather its candidate pool across
    city × keyword × level, then run the Company Result Selector on it.
    Cross-company state: (all rows so far, seen keys, query count). -/
def processCompany (ctx : EngineCtx) (selected_cities : List String)
    (level_filters : List String) (max_per_company : Int)
    (gst : List Row × List String × Nat) (raw_company : String) :
    Except SearchError (List Row × List String × Nat) :=
  let base_company := normalize_company_name raw_company
  match selected_cities.foldlM
    (processCity ctx raw_company base_company level_filters)
    (([] : List Row), (0 : Nat), gst.2.1, gst.2.2) with
  | .error e => .error e
  | .ok r =>
    .ok (gst.1 ++ prioritize_company_rows r.1
      (ctx.levels.filter (fun l => l ≠ "")) max_per_company, r.2.2.1, r.2.2.2)

/-- Ascending order on the final global sort key (seniority priority index,
    -fit_score, company, full name). -/
def engineFinalLe (a b : Row) : Prop :=
  let pa := seniority_priority_key (some a.raw_data.detected_level)
  let pb := seniority_priority_key (some b.raw_data.detected_level)
  pa < pb ∨ (pa = pb ∧ (fit_score_from_row b < fit_score_from_row a ∨
    (fit_score_from_row a = fit_score_from_row b ∧ (pyStrLt a.company b.company = true ∨
      (a.company = b.company ∧ pyStrLe a.full_name b.full_name = true)))))

instance : DecidableRel engineFinalLe := fun a b => by
  unfold engineFinalLe
  infer_instance

/-- contact_generation.generate_contacts, with the network modelled by
    `fetch`; an exception from the search client propagates (aborting the
    run) as .error. -/
def generate_contacts (filters : Filters) (job_context : JobContextLike)
    (serpapi_key : String) (fetch : String → Nat → String → HttpResponse) :
    Except SearchError ContactGenResult :=
  let companies0 :=
    (((if filters.companies.isEmpty then [job_context.company]
      else filters.companies).map pyStrip).filter (fun c => c ≠ ""))
  let selected_cities0 :=
    ((if ¬ filters.selected_cities.isEmpty then filters.selected_cities
      else if pyTruthyOpt job_context.city then [job_context.city.getD ""]
      else []).filter (fun c => c ≠ ""))
  let selected_schools := filters.selected_schools.filter (fun s => pyStrip s ≠ "")
  let max_per_company : Int :=
    match filters.max_per_company with
    | none => 10
    | some v => if v = 0 then 10 else v
  let levels := engineLevels filters
  let keywords0 := final_keywords filters job_context
  let companies := if companies0.isEmpty then [job_context.company] else companies0
  let selected_cities :=
    if selected_cities0.isEmpty then
      (if pyTruthyOpt job_context.city then [job_context.city.getD ""]
       else ["New York, NY"])
    else selected_cities0
  let keywords1 :=
    if keywords0.isEmpty then ["Analyst", "Associate", "Research Analyst"]
    else keywords0
  let keywords := keywords1.take 8
  let level_filters := engineLevelFilters levels
  let ctx : EngineCtx := {
    fetch := fetch
    serpapi_key := serpapi_key
    job_context := job_context
    levels := levels
    keywords := keywords
    selected_schools := selected_schools
    gather_limit := max_per_company * 6 }
  match companies.foldlM
    (processCompany ctx selected_cities level_filters max_per_company)
    (([] : List Row), ([] : List String), (0 : Nat)) with
  | .error e => .error e
  | .ok r =>
    .ok { rows := r.1.insertionSort engineFinalLe, query_count := r.2.2 }

/-! ## Proof infrastructure -/

theorem quotaFoldLength (total : Nat) (rem : List (Nat × Nat)) :
    ∀ st : List Nat × Nat,
      ((rem.foldl (fun (st : List Nat × Nat) p =>
        if total ≤ st.2 then st
        else (st.1.set p.2 (st.1.getD p.2 0 + 1), st.2 + 1)) st).1).length =
      st.1.length := by
  induction rem with
  | nil => intro st; rfl
  | cons p rest ih =>
    intro st
    simp only [List.foldl_cons]
    by_cases h : total ≤ st.2
    · rw [if_pos h]
      exact ih st
    · rw [if_neg h]
      rw [ih]
      simp [List.length_set]

/-- C9: For every input, allocate_seniority_quotas returns the empty mapping
    exactly when the total slot budget is non-positive or the selected-level
    list is empty after ordering and deduplication; degenerate inputs yield no
    quotas rather than an error. -/
theorem C9_allocate_empty_iff_degenerate (target_levels : List String)
    (total_slots : Int) :
    allocate_seniority_quotas target_levels total_slots = [] ↔
      (total_slots ≤ 0 ∨ ordered_selected_seniority_levels target_levels = []) := by
  unfold allocate_seniority_quotas
  by_cases h : total_slots ≤ 0 ∨
      (ordered_selected_seniority_levels target_levels).isEmpty
  · rw [if_pos h]
    simp only [true_iff]
    rcases h with h | h
    · exact Or.inl h
    · exact Or.inr (List.isEmpty_iff.mp h)
  · rw [if_neg h]
    push_neg at h
    obtain ⟨h1, h2⟩ := h
    have hne : ordered_selected_seniority_levels target_levels ≠ [] := by
      intro hh
      exact h2 (by simp [hh])
    constructor
    · intro hzip
      exfalso
      have hlen := congrArg List.length hzip
      rw [List.length_zip] at hlen
      rw [quotaFoldLength] at hlen
      simp only [List.length_insertionSort] at *
      simp only [List.length_map, List.enum_length, List.length_nil] at hlen
      have : (ordered_selected_seniority_levels target_levels).length ≠ 0 :=
        fun hz => hne (List.eq_nil_of_length_eq_zero hz)
      omega
    · intro hh
      rcases hh with hh | hh
      · omega
      · exact absurd hh hne

theorem take_len_le_int {m : Int} (hm : 0 ≤ m) (l : List Row) :
    ((l.take m.toNat).length : Int) ≤ m := by
  have h := List.length_take_le m.toNat l
  have h2 : ((l.take m.toNat).length : Int) ≤ (m.toNat : Int) := by
    exact_mod_cast h
  rwa [Int.toNat_of_nonneg hm] at h2

/-- C4: For every candidate pool, selected-level list, and non-negative cap,
    the Company Result Selector returns at most `max_per_company` rows — so
    each target company contributes at most `max_per_company` rows to a
    generate_contacts result (which appends exactly the selector's output for
    each company). -/
theorem C4_company_rows_capped (rows : List Row) (target_levels : List String)
    (max_per_company : Int) (hm : 0 ≤ max_per_company) :
    ((prioritize_company_rows rows target_levels max_per_company).length : Int) ≤
      max_per_company := by
  unfold prioritize_company_rows
  by_cases h : max_per_company ≤ 0 ∨ rows.isEmpty
  · rw [if_pos h]
    simpa using hm
  · rw [if_neg h]
    by_cases hsel : (ordered_selected_seniority_levels target_levels).isEmpty
    · rw [if_pos hsel]
      exact take_len_le_int hm _
    · rw [if_neg hsel]
      exact take_len_le_int hm _

theorem string_ne_of_data_ne {s t : String} (h : s.data ≠ t.data) : s ≠ t :=
  fun he => h (by rw [he])

theorem data_ne_nil_of_ne_empty {s : String} (h : s ≠ "") : s.data ≠ [] := by
  intro hd
  apply h
  cases s
  simp_all

/-- C10: generate_email returns the sentinel "N/A" exactly when the domain is
    absent (None or empty, i.e. falsy) or either name part cleans to the empty
    string; otherwise it returns first_clean.last_clean@domain, lower-cased. -/
theorem C10_generate_email_spec (first last : String) (domain : Option String) :
    (generate_email first last domain = "N/A" ↔
      (pyTruthyOpt domain = false ∨ clean_email_part first = "" ∨
        clean_email_part last = "")) ∧
    (∀ d, domain = some d → d ≠ "" → clean_email_part first ≠ "" →
      clean_email_part last ≠ "" →
      generate_email first last domain =
        clean_email_part first ++ "." ++ clean_email_part last ++ "@" ++ pyLower d) := by
  constructor
  · unfold generate_email
    cases domain with
    | none => simp [pyTruthyOpt]
    | some d =>
      dsimp only
      by_cases hd : d = ""
      · subst hd
        simp [pyTruthyOpt]
      · rw [if_neg hd]
        by_cases hfl : clean_email_part first = "" ∨ clean_email_part last = ""
        · rw [if_pos hfl]
          simp only [true_iff]
          exact Or.inr hfl
        · rw [if_neg hfl]
          push_neg at hfl
          obtain ⟨hf, hl⟩ := hfl
          constructor
          · intro heq
            exfalso
            have hlen := congrArg (fun s => s.data.length) heq
            simp only [String.data_append, List.length_append] at hlen
            norm_num [String.data] at hlen
            have h1 : 1 ≤ (clean_email_part first).length :=
              List.length_pos.mpr (data_ne_nil_of_ne_empty hf)
            have h2 : 1 ≤ (clean_email_part last).length :=
              List.length_pos.mpr (data_ne_nil_of_ne_empty hl)
            omega
          · intro hcase
            rcases hcase with hc | hc | hc
            · simp [pyTruthyOpt, hd] at hc
            · exact absurd hc hf
            · exact absurd hc hl
  · intro d hdom hd hf hl
    subst hdom
    unfold generate_email
    dsimp only
    rw [if_neg hd, if_neg (by push_neg; exact ⟨hf, hl⟩)]

/-- C5 (amended): a missing search credential makes google_search raise
    ValueError (modelled as `.error .missingKey`) — it does not fail closed —
    while a successful response with no profile-like organic results yields
    the empty list without raising. -/
theorem C5_missing_key_raises (query : String) (num : Nat)
    (fetch : String → Nat → String → HttpResponse) :
    (google_search query "" num fetch = .error .missingKey) ∧
    (∀ key, key ≠ "" → (fetch query num key).status < 400 →
      (fetch query num key).organic_results.filter
        (fun item => containsSub item.link "linkedin.com/in") = [] →
      google_search query key num fetch = .ok []) := by
  constructor
  · unfold google_search
    rw [if_pos rfl]
  · intro key hk hst hres
    unfold google_search
    rw [if_neg hk, if_neg (by omega)]
    rw [hres]
    rfl

/-! ## Concrete inputs used by counterexamples and witnesses -/

/-- A deterministic stubbed search network: one profile hit whose title names
    the company embedded in the query. -/
def cexFetch : String → Nat → String → HttpResponse := fun q _ _ =>
  { status := 200,
    organic_results := [
      { link := "http://linkedin.com/in/j",
        title :=
          if containsSub q "Beta" then "Jo Zu - Analyst at Colox Beta | LinkedIn"
          else "Jo Zu - Analyst at Colox | LinkedIn",
        snippet := none } ] }

def cexFilters : Filters := {
  companies := ["Colox", "Colox Beta"]
  selected_cities := ["Z"]
  seniority_levels := ["Analyst"]
  custom_keywords := ["Quantum"]
  max_per_company := some 1 }

def cexJC : JobContextLike := { job_name := "Quant", company := "Colox" }

/-- The rows of the stubbed two-company engine run. -/
def cexRows : List Row :=
  match generate_contacts cexFilters cexJC "k" cexFetch with
  | .ok r => r.rows
  | .error _ => []

/-- C5 (counterexample): with the credential missing, the search collaborator
    call raises (returns `.error`), not an empty `.ok []`, and the engine run
    aborts with the same error instead of proceeding. -/
theorem C5_counterexample :
    google_search "q" "" 8 cexFetch = .error .missingKey ∧
    google_search "q" "" 8 cexFetch ≠ .ok [] ∧
    generate_contacts cexFilters cexJC "" cexFetch = .error .missingKey := by
  refine ⟨rfl, fun h => Except.noConfusion h, rfl⟩

/-- C6 (counterexample): "Acme Investment Corporation" ends in both the
    "corporation" and the longer "investment corporation" division patterns,
    yet normalize_company_name strips only "Corporation" (the earlier pattern
    in list order), producing "Acme Investment" — longest-match-first would
    have produced "Acme". -/
theorem C6_counterexample :
    "corporation" ∈ DIVISION_PATTERNS ∧
    "investment corporation" ∈ DIVISION_PATTERNS ∧
    isSuffixList "corporation".toList
      (pyLower (pyStrip "Acme Investment Corporation")).toList = true ∧
    isSuffixList "investment corporation".toList
      (pyLower (pyStrip "Acme Investment Corporation")).toList = true ∧
    normalize_company_name "Acme Investment Corporation" = "Acme Investment" ∧
    normalize_company_name "Acme Investment Corporation" ≠ "Acme" := by
  decide

theorem find_append_first {p : String → Bool} {l1 l2 : List String} {x : String}
    (h1 : ∀ q ∈ l1, p q = false) (hx : p x = true) :
    (l1 ++ x :: l2).find? p = some x := by
  induction l1 with
  | nil => simp [List.find?, hx]
  | cons a rest ih =>
    have ha := h1 a (List.mem_cons_self a rest)
    simp only [List.cons_append, List.find?, ha]
    exact ih (fun q hq => h1 q (List.mem_cons_of_mem a hq))

/-- C6 (amended): normalize_company_name returns the trimmed name unchanged
    when its lower-cased form is whitelisted, and otherwise strips the FIRST
    pattern in DIVISION_PATTERNS list order that matches as a suffix of the
    lower-cased name — list order, not longest-match-first, decides when
    several patterns match. -/
theorem C6_first_listed_suffix_stripped (raw : String) :
    (COMPANY_WHITELIST.contains (pyLower (pyStrip raw)) = true →
      normalize_company_name raw = pyStrip raw) ∧
    (∀ l1 p l2, pyStrip raw ≠ "" →
      COMPANY_WHITELIST.contains (pyLower (pyStrip raw)) = false →
      DIVISION_PATTERNS = l1 ++ p :: l2 →
      (∀ q ∈ l1, isSuffixList q.toList (pyLower (pyStrip raw)).toList = false) →
      isSuffixList p.toList (pyLower (pyStrip raw)).toList = true →
      normalize_company_name raw =
        pyStrip (String.mk ((pyStrip raw).toList.take
          ((pyStrip raw).toList.length - p.toList.length)))) := by
  constructor
  · intro hw
    unfold normalize_company_name
    by_cases hn : pyStrip raw = ""
    · rw [if_pos hn, hn]
    · rw [if_neg hn, if_pos hw]
  · intro l1 p l2 hn hw hdiv hnone hp
    unfold normalize_company_name
    rw [if_neg hn, if_neg (by rw [hw]; exact Bool.false_ne_true)]
    rw [hdiv, find_append_first hnone hp]

/-- Invariant of the selector's picking state: picked rows have pairwise
    distinct identity keys, all of which are recorded in the key set. -/
def PickInv (picked : List Row) (ids : List String) : Prop :=
  picked.Pairwise (fun a b => candidate_row_identity a ≠ candidate_row_identity b) ∧
    ∀ r ∈ picked, candidate_row_identity r ∈ ids

theorem pickInv_add {picked ids row} (h : PickInv picked ids)
    (hnew : ids.contains (candidate_row_identity row) = false) :
    PickInv (picked ++ [row]) (ids ++ [candidate_row_identity row]) := by
  obtain ⟨hpw, hmem⟩ := h
  constructor
  · rw [List.pairwise_append]
    refine ⟨hpw, List.pairwise_singleton _ _, ?_⟩
    intro a ha b hb
    rw [List.mem_singleton] at hb
    subst hb
    intro heq
    have hin := hmem a ha
    rw [heq] at hin
    have := List.elem_eq_true_of_mem hin
    rw [show (List.elem (candidate_row_identity b) ids) =
      ids.contains (candidate_row_identity b) from rfl, hnew] at this
    exact Bool.false_ne_true this
  · intro r hr
    rw [List.mem_append] at hr
    rcases hr with hr | hr
    · exact List.mem_append_left _ (hmem r hr)
    · rw [List.mem_singleton] at hr
      subst hr
      exact List.mem_append_right _ (List.mem_singleton_self _)

theorem pickLoop_inv (maxN : Int) (l : List Row) :
    ∀ st : List Row × List String × Int, PickInv st.1 st.2.1 →
      PickInv (pickLoop maxN l st).1 (pickLoop maxN l st).2.1 := by
  induction l with
  | nil => intro st h; exact h
  | cons row rest ih =>
    intro st h
    obtain ⟨picked, ids, quota⟩ := st
    unfold pickLoop
    by_cases hstop : maxN ≤ (picked.length : Int) ∨ quota ≤ 0
    · rw [if_pos hstop]
      exact h
    · rw [if_neg hstop]
      by_cases hc : ids.contains (candidate_row_identity row)
      · rw [if_pos hc]
        exact ih _ h
      · rw [if_neg hc]
        exact ih _ (pickInv_add h (Bool.not_eq_true _ ▸ Bool.of_not_eq_true hc))

theorem pickAll_inv (maxN : Int) (l : List Row) :
    ∀ st : List Row × List String, PickInv st.1 st.2 →
      PickInv (pickAll maxN l st).1 (pickAll maxN l st).2 := by
  induction l with
  | nil => intro st h; exact h
  | cons row rest ih =>
    intro st h
    obtain ⟨picked, ids⟩ := st
    unfold pickAll
    by_cases hstop : maxN ≤ (picked.length : Int)
    · rw [if_pos hstop]
      exact h
    · rw [if_neg hstop]
      by_cases hc : ids.contains (candidate_row_identity row)
      · rw [if_pos hc]
        exact ih _ h
      · rw [if_neg hc]
        exact ih _ (pickInv_add h (Bool.of_not_eq_true hc))

theorem foldl_quota_inv (maxN : Int) (quotas : List (String × Nat))
    (grouped : String → List Row) (ls : List String) :
    ∀ st : List Row × List String, PickInv st.1 st.2 →
      PickInv ((ls.foldl (fun (st : List Row × List String) level =>
          let quota : Int := ((quotas.lookup level).getD 0 : Nat)
          if quota ≤ 0 then st
          else
            let r := pickLoop maxN (grouped level) (st.1, st.2, quota)
            (r.1, r.2.1)) st)).1
        ((ls.foldl (fun (st : List Row × List String) level =>
          let quota : Int := ((quotas.lookup level).getD 0 : Nat)
          if quota ≤ 0 then st
          else
            let r := pickLoop maxN (grouped level) (st.1, st.2, quota)
            (r.1, r.2.1)) st)).2 := by
  induction ls with
  | nil => intro st h; exact h
  | cons level rest ih =>
    intro st h
    simp only [List.foldl_cons]
    by_cases hq : ((quotas.lookup level).getD 0 : Int) ≤ 0
    · rw [if_pos hq]
      exact ih st h
    · rw [if_neg hq]
      exact ih _ (pickLoop_inv maxN (grouped level) (st.1, st.2, _) h)

theorem foldl_backfill_inv (maxN : Int) (grouped : String → List Row)
    (ls : List String) :
    ∀ st : List Row × List String, PickInv st.1 st.2 →
      PickInv ((ls.foldl (fun st level => pickAll maxN (grouped level) st) st)).1
        ((ls.foldl (fun st level => pickAll maxN (grouped level) st) st)).2 := by
  induction ls with
  | nil => intro st h; exact h
  | cons level rest ih =>
    intro st h
    simp only [List.foldl_cons]
    exact ih _ (pickAll_inv maxN (grouped level) st h)

theorem sortTakePairwise {pr : List Row × List String} {n : Nat}
    (h : PickInv pr.1 pr.2) :
    ((pr.1.insertionSort rowFinalLe).take n).Pairwise
      (fun a b => candidate_row_identity a ≠ candidate_row_identity b) := by
  have hp : (pr.1.insertionSort rowFinalLe).Pairwise
      (fun a b => candidate_row_identity a ≠ candidate_row_identity b) :=
    h.1.perm (List.perm_insertionSort _ _).symm (fun hxy => Ne.symm hxy)
  exact hp.take

theorem st23_inv (maxN : Int) (backfill : List Row) (grouped : String → List Row)
    (ls : List String) (st1 : List Row × List String) (h1 : PickInv st1.1 st1.2) :
    PickInv
      (let st2 := if (st1.1.length : Int) < maxN then
          ls.foldl (fun st level => pickAll maxN (grouped level) st) st1
        else st1
       let st3 := if (st2.1.length : Int) < maxN then pickAll maxN backfill st2
        else st2
       st3).1
      (let st2 := if (st1.1.length : Int) < maxN then
          ls.foldl (fun st level => pickAll maxN (grouped level) st) st1
        else st1
       let st3 := if (st2.1.length : Int) < maxN then pickAll maxN backfill st2
        else st2
       st3).2 := by
  dsimp only
  split
  · have h2 := foldl_backfill_inv maxN grouped ls st1 h1
    split
    · exact pickAll_inv maxN backfill _ h2
    · exact h2
  · exact h1

/-- C2 (amended): within the rows one company contributes (the output of
    prioritize_company_rows), identity keys are pairwise distinct whenever at
    least one seniority level is selected; the engine's cross-company
    deduplication uses a different key (lower-cased email when not "N/A",
    else first|last|company|url), so the full result set can repeat an
    identity key across companies. -/
theorem C2_company_identity_keys_distinct (rows : List Row)
    (target_levels : List String) (max_per_company : Int)
    (hsel : ordered_selected_seniority_levels target_levels ≠ []) :
    (prioritize_company_rows rows target_levels max_per_company).Pairwise
      (fun a b => candidate_row_identity a ≠ candidate_row_identity b) := by
  unfold prioritize_company_rows
  by_cases h : max_per_company ≤ 0 ∨ rows.isEmpty
  · rw [if_pos h]
    exact List.Pairwise.nil
  · rw [if_neg h]
    rw [if_neg (by
      intro hempty
      exact hsel (List.isEmpty_iff.mp hempty))]
    apply sortTakePairwise
    apply st23_inv
    apply foldl_quota_inv
    exact ⟨List.Pairwise.nil, by intro r hr; cases hr⟩

set_option maxHeartbeats 1000000 in
/-- C2 (counterexample): a stubbed two-company run returns Ok with two rows
    that carry the same identity key ("url:..." — both emails are "N/A" and
    both rows share a profile URL), because the engine deduplicates across
    companies by a different key that includes the company name. -/
theorem C2_counterexample :
    (generate_contacts cexFilters cexJC "k" cexFetch).isOk = true ∧
    ¬ (cexRows.map candidate_row_identity).Nodup := by
  constructor
  · decide
  · decide

theorem C2_witness :
    (prioritize_company_rows cexRows ["Analyst"] 1).Pairwise
      (fun a b => candidate_row_identity a ≠ candidate_row_identity b) :=
  C2_company_identity_keys_distinct cexRows ["Analyst"] 1 (by decide)

theorem C4_witness :
    ((prioritize_company_rows cexRows ["Analyst"] 1).length : Int) ≤ 1 :=
  C4_company_rows_capped cexRows ["Analyst"] 1 (by decide)

/-- A stubbed network whose successful response has no profile-like links. -/
def c5EmptyFetch : String → Nat → String → HttpResponse := fun _ _ _ =>
  { status := 200,
    organic_results := [ { link := "http://example.com/x", title := "X", snippet := none } ] }

theorem C5_witness :
    google_search "q" "" 8 c5EmptyFetch = .error .missingKey ∧
    google_search "q" "k" 8 c5EmptyFetch = .ok [] :=
  ⟨(C5_missing_key_raises "q" 8 c5EmptyFetch).1,
    (C5_missing_key_raises "q" 8 c5EmptyFetch).2 "k" (by decide) (by decide) (by decide)⟩

theorem C6_witness :
    normalize_company_name "Acme Investment Corporation" =
      pyStrip (String.mk ((pyStrip "Acme Investment Corporation").toList.take
        ((pyStrip "Acme Investment Corporation").toList.length -
          "corporation".toList.length))) :=
  (C6_first_listed_suffix_stripped "Acme Investment Corporation").2
    ["investment management", "asset management", "global advisors",
      "wealth management", "private wealth", "investors", "capital management",
      "capital"]
    "corporation"
    ["management", "associates", "financial", "global investor",
      "strategic advisors", "investment corporation", "investment group",
      "investments", "technology", "technologies", "company", "&", "strategy",
      "etfs", "markets", "investment", "global", "inc", "llc", "ltd", "co",
      "corp", "plc"]
    (by decide) (by decide) (by decide) (by decide) (by decide)

theorem C10_witness :
    (generate_email "Jo" "Zu" (some "GS.com") = "N/A" ↔
      (pyTruthyOpt (some "GS.com") = false ∨ clean_email_part "Jo" = "" ∨
        clean_email_part "Zu" = "")) ∧
    generate_email "Jo" "Zu" (some "GS.com") =
      clean_email_part "Jo" ++ "." ++ clean_email_part "Zu" ++ "@" ++ pyLower "GS.com" :=
  ⟨(C10_generate_email_spec "Jo" "Zu" (some "GS.com")).1,
    (C10_generate_email_spec "Jo" "Zu" (some "GS.com")).2 "GS.com" rfl
      (by decide) (by decide) (by decide)⟩

theorem isPrefixOf_append_self (p y : List Char) : p.isPrefixOf (p ++ y) = true := by
  induction p with
  | nil => simp [List.isPrefixOf]
  | cons c rest ih =>
    simp only [List.cons_append, List.isPrefixOf]
    simp only [beq_self_eq_true, Bool.true_and]
    exact ih

theorem infixOf_self_append (p y : List Char) : infixOfList p (p ++ y) = true := by
  cases p with
  | nil =>
    cases y with
    | nil => rfl
    | cons c rest => simp [infixOfList, List.isPrefixOf]
  | cons c rest =>
    unfold infixOfList
    rw [List.cons_append]
    simp only [Bool.or_eq_true]
    exact Or.inl (isPrefixOf_append_self (c :: rest) y)

theorem infixOf_append_left (p x l : List Char) (h : infixOfList p l = true) :
    infixOfList p (x ++ l) = true := by
  induction x with
  | nil => exact h
  | cons c rest ih =>
    unfold infixOfList
    rw [List.cons_append]
    simp only [Bool.or_eq_true]
    exact Or.inr ih

/-- C7 (amended): when no seniority levels are selected, generate_contacts
    defaults the level list to ["Analyst", "Associate"] — never to [""] — so
    every query of such a run carries a (nonempty) level clause embedded in
    the query string. -/
theorem C7_default_levels_carry_clause (filters : Filters)
    (h : filters.seniority_levels = []) :
    engineLevels filters = ["Analyst", "Associate"] ∧
    engineLevelFilters (engineLevels filters) = ["Analyst", "Associate"] ∧
    ∀ lf ∈ engineLevelFilters (engineLevels filters),
      queryLevelClause lf ≠ "" ∧
      ∀ kw comp city,
        containsSub (buildQuery kw lf comp city) (queryLevelClause lf) = true := by
  have h1 : engineLevels filters = ["Analyst", "Associate"] := by
    unfold engineLevels
    rw [h]
    rfl
  refine ⟨h1, by rw [h1]; rfl, ?_⟩
  rw [h1, show engineLevelFilters ["Analyst", "Associate"] =
    ["Analyst", "Associate"] from rfl]
  intro lf hlf
  have happ : ∀ a b : String, (a ++ b).toList = a.toList ++ b.toList :=
    fun _ _ => rfl
  constructor
  · rw [List.mem_cons, List.mem_cons] at hlf
    rcases hlf with hlf | hlf | hlf
    · subst hlf; decide
    · subst hlf; decide
    · cases hlf
  · intro kw comp city
    unfold containsSub buildQuery
    simp only [happ, List.append_assoc]
    apply infixOf_append_left
    apply infixOf_append_left
    have hr : ∀ rest : List Char,
        infixOfList (queryLevelClause lf).toList
          ((queryLevelClause lf).toList ++ rest) = true :=
      fun rest => infixOf_self_append _ rest
    exact hr _

/-- Filters with no seniority levels selected (for the C7 run). -/
def c7Filters : Filters := {
  companies := ["Colox"]
  selected_cities := ["Z"]
  seniority_levels := []
  custom_keywords := ["Quantum"]
  max_per_company := some 1 }

/-- Rows of a stubbed run with no seniority levels selected. -/
def c7Rows : List Row :=
  match generate_contacts c7Filters cexJC "k" cexFetch with
  | .ok r => r.rows
  | .error _ => []

set_option maxHeartbeats 1000000 in
/-- C7 (counterexample): with no seniority levels selected, the engine's
    level list defaults to ["Analyst", "Associate"], not [""], and the run's
    issued query (recorded on the returned row) contains an " Analyst" level
    clause — so queries do carry a level clause. -/
theorem C7_counterexample :
    engineLevelFilters (engineLevels c7Filters) = ["Analyst", "Associate"] ∧
    engineLevelFilters (engineLevels c7Filters) ≠ [""] ∧
    c7Rows.map (fun r => r.raw_data.query) =
      ["site:linkedin.com/in Quantum Analyst Colox \x22Z\x22"] ∧
    containsSub "site:linkedin.com/in Quantum Analyst Colox \x22Z\x22" " Analyst" =
      true := by
  refine ⟨by decide, by decide, by decide, by decide⟩

theorem C7_witness :
    engineLevels c7Filters = ["Analyst", "Associate"] ∧
    engineLevelFilters (engineLevels c7Filters) = ["Analyst", "Associate"] ∧
    ∀ lf ∈ engineLevelFilters (engineLevels c7Filters),
      queryLevelClause lf ≠ "" ∧
      ∀ kw comp city,
        containsSub (buildQuery kw lf comp city) (queryLevelClause lf) = true :=
  C7_default_levels_carry_clause c7Filters rfl

theorem weight_pos (l : String) :
    1 ≤ (SENIORITY_DISTRIBUTION_WEIGHTS.lookup l).getD 1 := by
  unfold SENIORITY_DISTRIBUTION_WEIGHTS
  simp only [List.lookup]
  repeat' split
  all_goals simp

theorem length_le_sum_of_pos (l : List Nat) (h : ∀ x ∈ l, 1 ≤ x) :
    l.length ≤ l.sum := by
  induction l with
  | nil => simp
  | cons x rest ih =>
    simp only [List.length_cons, List.sum_cons]
    have hx := h x (List.mem_cons_self x rest)
    have hr := ih (fun y hy => h y (List.mem_cons_of_mem x hy))
    omega

theorem div_add_div_le (a b c : Nat) (hc : 0 < c) : a / c + b / c ≤ (a + b) / c := by
  rw [Nat.le_div_iff_mul_le hc]
  have h1 : a / c * c ≤ a := Nat.div_mul_le_self a c
  have h2 : b / c * c ≤ b := Nat.div_mul_le_self b c
  calc (a / c + b / c) * c = a / c * c + b / c * c := by ring
    _ ≤ a + b := Nat.add_le_add h1 h2

theorem floor_sum_le (T W : Nat) (hW : 0 < W) (l : List Nat) :
    (l.map (fun w => T * w / W)).sum ≤ T * l.sum / W := by
  induction l with
  | nil => simp
  | cons w rest ih =>
    simp only [List.map_cons, List.sum_cons]
    calc T * w / W + (rest.map (fun w => T * w / W)).sum
        ≤ T * w / W + T * rest.sum / W := Nat.add_le_add_left ih _
      _ ≤ (T * w + T * rest.sum) / W := div_add_div_le _ _ _ hW
      _ = T * (w + rest.sum) / W := by rw [Nat.mul_add]

theorem sum_decompose (T W : Nat) (l : List Nat) :
    T * l.sum = W * (l.map (fun w => T * w / W)).sum +
      (l.map (fun w => T * w % W)).sum := by
  induction l with
  | nil => simp
  | cons w rest ih =>
    simp only [List.map_cons, List.sum_cons]
    have hdm := Nat.div_add_mod (T * w) W
    calc T * (w + rest.sum) = T * w + T * rest.sum := by ring
      _ = (W * (T * w / W) + T * w % W) + T * rest.sum := by rw [hdm]
      _ = (W * (T * w / W) + T * w % W) +
          (W * (rest.map (fun w => T * w / W)).sum +
            (rest.map (fun w => T * w % W)).sum) := by rw [← ih]
      _ = W * (T * w / W + (rest.map (fun w => T * w / W)).sum) +
          (T * w % W + (rest.map (fun w => T * w % W)).sum) := by ring

theorem mod_sum_le (T W : Nat) (hW : 0 < W) (l : List Nat) :
    (l.map (fun w => T * w % W)).sum ≤ l.length * (W - 1) := by
  induction l with
  | nil => simp
  | cons w rest ih =>
    simp only [List.map_cons, List.sum_cons, List.length_cons]
    have h1 : T * w % W < W := Nat.mod_lt _ hW
    have : T * w % W ≤ W - 1 := by omega
    calc T * w % W + (rest.map (fun w => T * w % W)).sum
        ≤ (W - 1) + rest.length * (W - 1) := Nat.add_le_add this ih
      _ = (rest.length + 1) * (W - 1) := by ring

theorem assigned_lower_bound (T : Nat) (l : List Nat) (hl : l ≠ [])
    (hW : l.sum ≠ 0) :
    T < (l.map (fun w => T * w / l.sum)).sum + l.length := by
  have hWpos : 0 < l.sum := Nat.pos_of_ne_zero hW
  have hn : 1 ≤ l.length := by
    cases l with
    | nil => exact absurd rfl hl
    | cons a rest => simp
  have hdec := sum_decompose T l.sum l
  have hmod := mod_sum_le T l.sum hWpos l
  have h2 : l.length * (l.sum - 1) + l.length = l.length * l.sum := by
    cases hs : l.sum with
    | zero => omega
    | succ w => simp only [Nat.succ_sub_one]; ring
  have h3 : T * l.sum + l.length ≤
      l.sum * ((l.map (fun w => T * w / l.sum)).sum + l.length) := by
    have : l.sum * ((l.map (fun w => T * w / l.sum)).sum + l.length) =
        l.sum * (l.map (fun w => T * w / l.sum)).sum + l.length * l.sum := by ring
    omega
  have h4 : l.sum * T < l.sum * ((l.map (fun w => T * w / l.sum)).sum + l.length) := by
    have hTW : T * l.sum = l.sum * T := Nat.mul_comm _ _
    omega
  exact Nat.lt_of_mul_lt_mul_left h4

theorem sum_set_getD_succ (l : List Nat) (i : Nat) (h : i < l.length) :
    (l.set i (l.getD i 0 + 1)).sum = l.sum + 1 := by
  induction l generalizing i with
  | nil => simp at h
  | cons x rest ih =>
    cases i with
    | zero => simp [List.set, List.getD, List.sum_cons]; omega
    | succ j =>
      simp only [List.set, List.sum_cons, List.getD_cons_succ]
      have hj : j < rest.length := by
        simp only [List.length_cons] at h
        omega
      rw [ih j hj]
      omega

theorem mem_enumFrom_lt {α : Type} (l : List α) (k : Nat) (p : Nat × α)
    (h : p ∈ l.enumFrom k) : p.1 < k + l.length := by
  induction l generalizing k with
  | nil => simp [List.enumFrom] at h
  | cons a rest ih =>
    simp only [List.enumFrom, List.mem_cons] at h
    rcases h with h | h
    · subst h
      simp
    · have := ih (k + 1) h
      simp only [List.length_cons]
      omega

theorem mem_enum_lt {α : Type} (l : List α) (p : Nat × α) (h : p ∈ l.enum) :
    p.1 < l.length := by
  have := mem_enumFrom_lt l 0 p h
  omega

theorem quota_fold_spec (T : Nat) :
    ∀ (rem : List (Nat × Nat)) (st : List Nat × Nat),
      (∀ p ∈ rem, p.2 < st.1.length) → st.1.sum = st.2 → st.2 ≤ T →
      ((rem.foldl (fun (st : List Nat × Nat) p =>
          if T ≤ st.2 then st
          else (st.1.set p.2 (st.1.getD p.2 0 + 1), st.2 + 1)) st).1.sum =
        (rem.foldl (fun (st : List Nat × Nat) p =>
          if T ≤ st.2 then st
          else (st.1.set p.2 (st.1.getD p.2 0 + 1), st.2 + 1)) st).2) ∧
      ((rem.foldl (fun (st : List Nat × Nat) p =>
          if T ≤ st.2 then st
          else (st.1.set p.2 (st.1.getD p.2 0 + 1), st.2 + 1)) st).2 =
        min T (st.2 + rem.length)) := by
  intro rem
  induction rem with
  | nil =>
    intro st hv hsum hle
    simp only [List.foldl_nil, List.length_nil, Nat.add_zero]
    exact ⟨hsum, by omega⟩
  | cons p rest ih =>
    intro st hv hsum hle
    simp only [List.foldl_cons, List.length_cons]
    by_cases hT : T ≤ st.2
    · rw [if_pos hT]
      have heq : st.2 = T := Nat.le_antisymm hle hT
      obtain ⟨ih1, ih2⟩ := ih st (fun q hq => hv q (List.mem_cons_of_mem p hq))
        hsum hle
      exact ⟨ih1, by omega⟩
    · rw [if_neg hT]
      have hp := hv p (List.mem_cons_self p rest)
      have hsum' : (st.1.set p.2 (st.1.getD p.2 0 + 1)).sum = st.2 + 1 := by
        rw [sum_set_getD_succ st.1 p.2 hp, hsum]
      have hlen' : (st.1.set p.2 (st.1.getD p.2 0 + 1)).length = st.1.length := by
        simp [List.length_set]
      obtain ⟨ih1, ih2⟩ := ih (st.1.set p.2 (st.1.getD p.2 0 + 1), st.2 + 1)
        (by
          intro q hq
          rw [hlen']
          exact hv q (List.mem_cons_of_mem p hq))
        hsum' (by omega)
      exact ⟨ih1, by rw [ih2]; omega⟩

theorem map_snd_zip_eq {α β : Type} :
    ∀ (l1 : List α) (l2 : List β), l1.length = l2.length →
      (l1.zip l2).map Prod.snd = l2
  | [], [], _ => rfl
  | [], b :: bs, h => by simp at h
  | a :: as, [], h => by simp at h
  | a :: as, b :: bs, h => by
    simp only [List.zip_cons_cons, List.map_cons]
    rw [map_snd_zip_eq as bs (by simpa using h)]

/-- C3: whenever at least one level is selected and the slot budget is
    positive, the quotas of allocate_seniority_quotas sum exactly to the
    budget; and when exactly one level is selected, that level receives the
    entire budget. -/
theorem C3_quotas_sum_to_total (target_levels : List String) (total_slots : Int)
    (htotal : 0 < total_slots)
    (hsel : ordered_selected_seniority_levels target_levels ≠ []) :
    ((((allocate_seniority_quotas target_levels total_slots).map Prod.snd).sum : Int)
      = total_slots) ∧
    (∀ l, ordered_selected_seniority_levels target_levels = [l] →
      allocate_seniority_quotas target_levels total_slots =
        [(l, total_slots.toNat)]) := by
  constructor
  · unfold allocate_seniority_quotas
    rw [if_neg (by
      push_neg
      exact ⟨htotal, by
        intro hempty
        exact hsel (List.isEmpty_iff.mp hempty)⟩)]
    dsimp only
    have hwpos : ∀ x ∈ (ordered_selected_seniority_levels target_levels).map
        (fun l => (SENIORITY_DISTRIBUTION_WEIGHTS.lookup l).getD 1), 1 ≤ x := by
      intro x hx
      rw [List.mem_map] at hx
      obtain ⟨l, _, hl⟩ := hx
      rw [← hl]
      exact weight_pos l
    have hwne : (ordered_selected_seniority_levels target_levels).map
        (fun l => (SENIORITY_DISTRIBUTION_WEIGHTS.lookup l).getD 1) ≠ [] := by
      intro hmap
      exact hsel (List.map_eq_nil_iff.mp hmap)
    have hwsum : ((ordered_selected_seniority_levels target_levels).map
        (fun l => (SENIORITY_DISTRIBUTION_WEIGHTS.lookup l).getD 1)).sum ≠ 0 := by
      have h1 := length_le_sum_of_pos _ hwpos
      have h2 : 1 ≤ ((ordered_selected_seniority_levels target_levels).map
          (fun l => (SENIORITY_DISTRIBUTION_WEIGHTS.lookup l).getD 1)).length := by
        cases hc : (ordered_selected_seniority_levels target_levels).map
            (fun l => (SENIORITY_DISTRIBUTION_WEIGHTS.lookup l).getD 1) with
        | nil => exact absurd hc hwne
        | cons a rest => simp
      omega
    rw [if_neg hwsum]
    set selected := ordered_selected_seniority_levels target_levels with hseldef
    set T := total_slots.toNat with hTdef
    set weights := selected.map
      (fun l => (SENIORITY_DISTRIBUTION_WEIGHTS.lookup l).getD 1) with hwdef
    set S := weights.sum with hSdef
    have hSpos : 0 < S := Nat.pos_of_ne_zero hwsum
    set quotas := weights.map (fun w => T * w / S) with hqdef
    set remainders := weights.enum.map (fun p => (T * p.2 % S, p.1)) with hrdef
    set sortedRem := remainders.insertionSort remainderBefore with hsdef
    have hassigned_le : quotas.sum ≤ T := by
      have h1 := floor_sum_le T S hSpos weights
      have h2 : T * S / S = T := Nat.mul_div_cancel T hSpos
      rw [← hSdef] at h1
      rw [← hqdef] at h1
      omega
    have hlow : T < quotas.sum + weights.length := by
      have h1 := assigned_lower_bound T weights hwne hwsum
      rw [← hSdef] at h1
      exact h1
    have hvalid : ∀ p ∈ sortedRem, p.2 < quotas.length := by
      intro p hp
      rw [hsdef, List.mem_insertionSort] at hp
      rw [hrdef, List.mem_map] at hp
      obtain ⟨q, hq, hqp⟩ := hp
      have hlt := mem_enum_lt weights q hq
      rw [← hqp]
      simp only [hqdef, List.length_map]
      exact hlt
    have hslen : sortedRem.length = weights.length := by
      rw [hsdef, List.length_insertionSort, hrdef, List.length_map,
        List.enum_length]
    obtain ⟨hf1, hf2⟩ := quota_fold_spec T sortedRem (quotas, quotas.sum) hvalid
      rfl hassigned_le
    have hfoldlen := quotaFoldLength T sortedRem (quotas, quotas.sum)
    rw [map_snd_zip_eq]
    · rw [hf1, hf2, hslen]
      have hnat : min T (quotas.sum + weights.length) = T := by omega
      rw [hnat, hTdef]
      exact Int.toNat_of_nonneg (le_of_lt htotal)
    · rw [hfoldlen]
      simp only [hqdef, List.length_map, hwdef]
  · intro l hl
    unfold allocate_seniority_quotas
    rw [hl]
    rw [if_neg (by
      push_neg
      exact ⟨htotal, by simp⟩)]
    dsimp only
    have hw := weight_pos l
    simp only [List.map_cons, List.map_nil, List.sum_cons, List.sum_nil,
      Nat.add_zero, List.length_cons, List.length_nil]
    rw [if_neg (by omega)]
    have hdiv : total_slots.toNat * ((SENIORITY_DISTRIBUTION_WEIGHTS.lookup l).getD 1) /
        ((SENIORITY_DISTRIBUTION_WEIGHTS.lookup l).getD 1) = total_slots.toNat :=
      Nat.mul_div_cancel _ (by omega)
    have hmod : total_slots.toNat * ((SENIORITY_DISTRIBUTION_WEIGHTS.lookup l).getD 1) %
        ((SENIORITY_DISTRIBUTION_WEIGHTS.lookup l).getD 1) = 0 :=
      Nat.mul_mod_left _ _
    simp only [List.enum, List.enumFrom, List.map_cons, List.map_nil, hdiv, hmod]
    simp only [List.insertionSort, List.orderedInsert, List.foldl_cons,
      List.foldl_nil, List.sum_cons, List.sum_nil, Nat.add_zero]
    rw [if_pos (Nat.le_refl _)]
    simp [List.zip]

theorem C3_witness :
    ((((allocate_seniority_quotas ["Analyst", "VP"] 7).map Prod.snd).sum : Int) = 7) ∧
    allocate_seniority_quotas ["Analyst"] 5 = [("Analyst", (5 : Int).toNat)] :=
  ⟨(C3_quotas_sum_to_total ["Analyst", "VP"] 7 (by decide) (by decide)).1,
    (C3_quotas_sum_to_total ["Analyst"] 5 (by decide) (by decide)).2 "Analyst"
      (by decide)⟩

/-- The row-level bound tracked through the engine. -/
def FitBounded (r : Row) : Prop :=
  0 ≤ r.raw_data.fit_score ∧ r.raw_data.fit_score ≤ 100

theorem compute_fit_score_bounds (jc : JobContextLike) (a b c : String)
    (rc : Option String) (dl : String) (tl : List String)
    (kh ckh : Option String) (cks : Int) (st em : Option String) (ccc : Bool) :
    0 ≤ (compute_fit_score jc a b c rc dl tl kh ckh cks st em ccc).1 ∧
      (compute_fit_score jc a b c rc dl tl kh ckh cks st em ccc).1 ≤ 100 := by
  obtain ⟨X, hX⟩ : ∃ X, (compute_fit_score jc a b c rc dl tl kh ckh cks st em ccc).1 =
      max 0 (min 100 X) := ⟨_, rfl⟩
  rw [hX]
  constructor
  · exact le_max_left 0 _
  · apply max_le
    · norm_num
    · exact min_le_left _ _

theorem processResult_bounded (ctx : EngineCtx)
    (rc bc city query kw lf : String) (st : List Row × Nat × List String)
    (result : SearchResult) (h : ∀ r ∈ st.1, FitBounded r) :
    ∀ r ∈ (processResult ctx rc bc city query kw lf st result).1, FitBounded r := by
  unfold processResult
  dsimp only
  repeat' split
  all_goals
    first
    | exact h
    | (intro r hr
       simp only [List.mem_append, List.mem_singleton] at hr
       rcases hr with hr | hr
       · exact h r hr
       · subst hr
         exact compute_fit_score_bounds _ _ _ _ _ _ _ _ _ _ _ _ _)

theorem foldl_processResult_bounded (ctx : EngineCtx)
    (rc bc city query kw lf : String) :
    ∀ (results : List SearchResult) (st : List Row × Nat × List String),
      (∀ r ∈ st.1, FitBounded r) →
      ∀ r ∈ (results.foldl (processResult ctx rc bc city query kw lf) st).1,
        FitBounded r := by
  intro results
  induction results with
  | nil => intro st h; exact h
  | cons x rest ih =>
    intro st h
    simp only [List.foldl_cons]
    exact ih _ (processResult_bounded ctx rc bc city query kw lf st x h)

theorem foldlM_except_inv {σ α : Type} (f : σ → α → Except SearchError σ)
    (Inv : σ → Prop)
    (hstep : ∀ st x res, f st x = .ok res → Inv st → Inv res) :
    ∀ (l : List α) (st res : σ), l.foldlM f st = .ok res → Inv st → Inv res := by
  intro l
  induction l with
  | nil =>
    intro st res hres hst
    simp only [List.foldlM_nil] at hres
    injection hres with hres
    rw [← hres]
    exact hst
  | cons x rest ih =>
    intro st res hres hst
    rw [List.foldlM_cons] at hres
    cases hx : f st x with
    | error e =>
      rw [hx] at hres
      exact Except.noConfusion hres
    | ok st2 =>
      rw [hx] at hres
      exact ih st2 res hres (hstep st x st2 hx hst)

theorem processQuery_bounded (ctx : EngineCtx)
    (rc bc city cs kw : String) (st : List Row × Nat × List String × Nat)
    (lf : String) (res : List Row × Nat × List String × Nat)
    (hres : processQuery ctx rc bc city cs kw st lf = .ok res)
    (h : ∀ r ∈ st.1, FitBounded r) : ∀ r ∈ res.1, FitBounded r := by
  unfold processQuery at hres
  dsimp only at hres
  split at hres
  · injection hres with hres
    rw [← hres]
    exact h
  · split at hres
    · exact absurd hres (by simp)
    · injection hres with hres
      rw [← hres]
      exact foldl_processResult_bounded ctx rc bc city _ kw lf _
        (st.1, st.2.1, st.2.2.1) h

theorem processKeyword_bounded (ctx : EngineCtx) (rc bc city cs : String)
    (lfs : List String) (st : List Row × Nat × List String × Nat) (kw : String)
    (res : List Row × Nat × List String × Nat)
    (hres : processKeyword ctx rc bc city cs lfs st kw = .ok res)
    (h : ∀ r ∈ st.1, FitBounded r) : ∀ r ∈ res.1, FitBounded r := by
  unfold processKeyword at hres
  split at hres
  · injection hres with hres
    rw [← hres]
    exact h
  · exact foldlM_except_inv _ (fun s => ∀ r ∈ s.1, FitBounded r)
      (fun s x r hr hs => processQuery_bounded ctx rc bc city cs kw s x r hr hs)
      lfs st res hres h

theorem processCity_bounded (ctx : EngineCtx) (rc bc : String)
    (lfs : List String) (st : List Row × Nat × List String × Nat) (city : String)
    (res : List Row × Nat × List String × Nat)
    (hres : processCity ctx rc bc lfs st city = .ok res)
    (h : ∀ r ∈ st.1, FitBounded r) : ∀ r ∈ res.1, FitBounded r := by
  unfold processCity at hres
  split at hres
  · injection hres with hres
    rw [← hres]
    exact h
  · exact foldlM_except_inv _ (fun s => ∀ r ∈ s.1, FitBounded r)
      (fun s x r hr hs => processKeyword_bounded ctx rc bc city _ lfs s x r hr hs)
      ctx.keywords st res hres h

theorem pickLoop_pres (Q : Row → Prop) (maxN : Int) :
    ∀ (l : List Row) (st : List Row × List String × Int),
      (∀ x ∈ l, Q x) → (∀ x ∈ st.1, Q x) →
      ∀ x ∈ (pickLoop maxN l st).1, Q x := by
  intro l
  induction l with
  | nil => intro st _ hst; exact hst
  | cons row rest ih =>
    intro st hl hst
    obtain ⟨picked, ids, quota⟩ := st
    unfold pickLoop
    split
    · exact hst
    · dsimp only
      split
      · exact ih _ (fun x hx => hl x (List.mem_cons_of_mem row hx)) hst
      · apply ih _ (fun x hx => hl x (List.mem_cons_of_mem row hx))
        intro x hx
        simp only [List.mem_append, List.mem_singleton] at hx
        rcases hx with hx | hx
        · exact hst x hx
        · subst hx
          exact hl x (List.mem_cons_self x rest)

theorem pickAll_pres (Q : Row → Prop) (maxN : Int) :
    ∀ (l : List Row) (st : List Row × List String),
      (∀ x ∈ l, Q x) → (∀ x ∈ st.1, Q x) →
      ∀ x ∈ (pickAll maxN l st).1, Q x := by
  intro l
  induction l with
  | nil => intro st _ hst; exact hst
  | cons row rest ih =>
    intro st hl hst
    obtain ⟨picked, ids⟩ := st
    unfold pickAll
    split
    · exact hst
    · dsimp only
      split
      · exact ih _ (fun x hx => hl x (List.mem_cons_of_mem row hx)) hst
      · apply ih _ (fun x hx => hl x (List.mem_cons_of_mem row hx))
        intro x hx
        simp only [List.mem_append, List.mem_singleton] at hx
        rcases hx with hx | hx
        · exact hst x hx
        · subst hx
          exact hl x (List.mem_cons_self x rest)

theorem foldl_quota_pres (Q : Row → Prop) (maxN : Int) (quotas : List (String × Nat))
    (grouped : String → List Row) (hg : ∀ level, ∀ x ∈ grouped level, Q x)
    (ls : List String) :
    ∀ st : List Row × List String, (∀ x ∈ st.1, Q x) →
      ∀ x ∈ ((ls.foldl (fun (st : List Row × List String) level =>
          let quota : Int := ((quotas.lookup level).getD 0 : Nat)
          if quota ≤ 0 then st
          else
            let r := pickLoop maxN (grouped level) (st.1, st.2, quota)
            (r.1, r.2.1)) st)).1, Q x := by
  induction ls with
  | nil => intro st h; exact h
  | cons level rest ih =>
    intro st h
    simp only [List.foldl_cons]
    by_cases hq : ((quotas.lookup level).getD 0 : Int) ≤ 0
    · rw [if_pos hq]
      exact ih st h
    · rw [if_neg hq]
      exact ih _ (pickLoop_pres Q maxN (grouped level) (st.1, st.2, _)
        (hg level) h)

theorem foldl_backfill_pres (Q : Row → Prop) (maxN : Int)
    (grouped : String → List Row) (hg : ∀ level, ∀ x ∈ grouped level, Q x)
    (ls : List String) :
    ∀ st : List Row × List String, (∀ x ∈ st.1, Q x) →
      ∀ x ∈ ((ls.foldl (fun st level => pickAll maxN (grouped level) st) st)).1,
        Q x := by
  induction ls with
  | nil => intro st h; exact h
  | cons level rest ih =>
    intro st h
    simp only [List.foldl_cons]
    exact ih _ (pickAll_pres Q maxN (grouped level) st (hg level) h)

theorem st23_pres (Q : Row → Prop) (maxN : Int) (backfill : List Row)
    (grouped : String → List Row) (ls : List String)
    (hb : ∀ x ∈ backfill, Q x) (hg : ∀ level, ∀ x ∈ grouped level, Q x)
    (st1 : List Row × List String) (h1 : ∀ x ∈ st1.1, Q x) :
    ∀ x ∈ (let st2 := if (st1.1.length : Int) < maxN then
          ls.foldl (fun st level => pickAll maxN (grouped level) st) st1
        else st1
      let st3 := if (st2.1.length : Int) < maxN then pickAll maxN backfill st2
        else st2
      st3).1, Q x := by
  dsimp only
  split
  · have h2 := foldl_backfill_pres Q maxN grouped hg ls st1 h1
    split
    · exact pickAll_pres Q maxN backfill _ hb h2
    · exact h2
  · exact h1

theorem sortTakePres (Q : Row → Prop) (pr : List Row × List String) (n : Nat)
    (h : ∀ x ∈ pr.1, Q x) :
    ∀ x ∈ (pr.1.insertionSort rowFinalLe).take n, Q x := by
  intro x hx
  have hx2 : x ∈ pr.1.insertionSort rowFinalLe := List.mem_of_mem_take hx
  rw [List.mem_insertionSort] at hx2
  exact h x hx2

/-- Every row returned by the Company Result Selector comes from its input
    pool. -/
theorem prioritize_company_rows_mem (rows : List Row) (target_levels : List String)
    (max_per_company : Int) :
    ∀ x ∈ prioritize_company_rows rows target_levels max_per_company, x ∈ rows := by
  unfold prioritize_company_rows
  by_cases h : max_per_company ≤ 0 ∨ rows.isEmpty
  · rw [if_pos h]
    intro x hx
    cases hx
  · rw [if_neg h]
    by_cases hsel : (ordered_selected_seniority_levels target_levels).isEmpty
    · rw [if_pos hsel]
      intro x hx
      have hx2 := List.mem_of_mem_take hx
      rw [List.mem_insertionSort] at hx2
      exact hx2
    · rw [if_neg hsel]
      apply sortTakePres
      apply st23_pres
      · intro x hx
        rw [List.mem_append] at hx
        rcases hx with hx | hx
        · rw [List.mem_insertionSort] at hx
          exact (List.mem_filter.mp hx).1
        · rw [List.mem_insertionSort] at hx
          exact (List.mem_filter.mp hx).1
      · intro level x hx
        rw [List.mem_insertionSort] at hx
        exact (List.mem_filter.mp hx).1
      · apply foldl_quota_pres
        · intro level x hx
          rw [List.mem_insertionSort] at hx
          exact (List.mem_filter.mp hx).1
        · intro x hx
          cases hx

theorem processCompany_bounded (ctx : EngineCtx) (cities lfs : List String)
    (mpc : Int) (gst : List Row × List String × Nat) (comp : String)
    (res : List Row × List String × Nat)
    (hres : processCompany ctx cities lfs mpc gst comp = .ok res)
    (h : ∀ r ∈ gst.1, FitBounded r) : ∀ r ∈ res.1, FitBounded r := by
  unfold processCompany at hres
  dsimp only at hres
  split at hres
  · exact Except.noConfusion hres
  · injection hres with hres
    rw [← hres]
    intro r hr
    rw [List.mem_append] at hr
    rcases hr with hr | hr
    · exact h r hr
    · have hmem := prioritize_company_rows_mem _ _ _ r hr
      rename_i r2 heq
      have hbound := foldlM_except_inv _ (fun s => ∀ x ∈ s.1, FitBounded x)
        (fun s x rr hrr hs => processCity_bounded ctx comp
          (normalize_company_name comp) lfs s x rr hrr hs)
        cities (([] : List Row), (0 : Nat), gst.2.1, gst.2.2) r2 heq
        (by intro x hx; cases hx)
      exact hbound r hmem

/-- Every row of a successful generate_contacts run has a fit score in
    [0, 100] (the raw_data.fit_score is the clamped compute_fit_score). -/
theorem generate_contacts_rows_bounded (filters : Filters)
    (job_context : JobContextLike) (key : String)
    (fetch : String → Nat → String → HttpResponse) (res : ContactGenResult)
    (hres : generate_contacts filters job_context key fetch = .ok res) :
    ∀ r ∈ res.rows, FitBounded r := by
  unfold generate_contacts at hres
  dsimp only at hres
  split at hres
  · exact Except.noConfusion hres
  · injection hres with hres
    rw [← hres]
    intro r hr
    simp only [List.mem_insertionSort] at hr
    rename_i r2 heq
    exact foldlM_except_inv _ (fun s => ∀ x ∈ s.1, FitBounded x)
      (fun s x rr hrr hs => processCompany_bounded _ _ _ _ s x rr hrr hs)
      _ (([] : List Row), ([] : List String), (0 : Nat)) r2 heq
      (by intro x hx; cases hx) r hr

/-- C1: compute_fit_score always returns a score in [0, 100] (final clamp),
    and consequently every candidate row of any successful generate_contacts
    run carries a raw_data.fit_score with 0 ≤ fit_score ≤ 100. -/
theorem C1_fit_score_in_range :
    (∀ (jc : JobContextLike) (a b c : String) (rc : Option String) (dl : String)
      (tl : List String) (kh ckh : Option String) (cks : Int)
      (st em : Option String) (ccc : Bool),
      0 ≤ (compute_fit_score jc a b c rc dl tl kh ckh cks st em ccc).1 ∧
        (compute_fit_score jc a b c rc dl tl kh ckh cks st em ccc).1 ≤ 100) ∧
    (∀ (filters : Filters) (job_context : JobContextLike) (key : String)
      (fetch : String → Nat → String → HttpResponse) (res : ContactGenResult),
      generate_contacts filters job_context key fetch = .ok res →
      ∀ r ∈ res.rows, 0 ≤ r.raw_data.fit_score ∧ r.raw_data.fit_score ≤ 100) :=
  ⟨fun jc a b c rc dl tl kh ckh cks st em ccc =>
    compute_fit_score_bounds jc a b c rc dl tl kh ckh cks st em ccc,
   fun filters job_context key fetch res hres r hr =>
    generate_contacts_rows_bounded filters job_context key fetch res hres r hr⟩

/-- A default row (used only to state witness properties via headD). -/
def dummyRow : Row := {
  full_name := ""
  first_name := none
  last_name := none
  title := none
  company := ""
  city := ""
  school := none
  linkedin_url := none
  email := ""
  source_tag := ""
  raw_data := {
    fit_score := 0
    fit_reasons := []
    query := ""
    query_keyword := ""
    result_title := none
    target_level := ""
    detected_level := ""
    seniority_reason := ""
    school_target := none
    base_company := ""
    current_company_reasons := []
    custom_keyword_hit := none
    custom_keyword_score := 0
    snippet := none } }

set_option maxHeartbeats 1000000 in
theorem C1_witness :
    0 ≤ (cexRows.headD dummyRow).raw_data.fit_score ∧
      (cexRows.headD dummyRow).raw_data.fit_score ≤ 100 := by
  have hok : generate_contacts cexFilters cexJC "k" cexFetch =
      .ok { rows := cexRows, query_count := 2 } := by rfl
  have hmem : cexRows.headD dummyRow ∈ cexRows := by decide
  exact C1_fit_score_in_range.2 cexFilters cexJC "k" cexFetch
    { rows := cexRows, query_count := 2 } hok (cexRows.headD dummyRow) hmem

/-! ### C8: parse_title brand stripping and segment round trip -/

theorem mk_toList (s : String) : String.mk s.toList = s := by
  cases s
  rfl

theorem dropWhile_eq_of_length (p : Char → Bool) (l : List Char)
    (h : (l.dropWhile p).length = l.length) : l.dropWhile p = l := by
  cases l with
  | nil => rfl
  | cons c t =>
    by_cases hc : p c
    · exfalso
      rw [List.dropWhile_cons, if_pos hc] at h
      have := length_dropWhile_le p t
      simp only [List.length_cons] at h
      omega
    · rw [List.dropWhile_cons, if_neg hc]

theorem strip_self_parts (l : List Char) (h : pyStripList l = l) :
    l.dropWhile pyIsWS = l ∧ l.reverse.dropWhile pyIsWS = l.reverse := by
  unfold pyStripList dropTrailWS dropLeadWS at h
  have hlen1 : (l.dropWhile pyIsWS).length ≤ l.length := length_dropWhile_le _ _
  have hlen2 : ((l.dropWhile pyIsWS).reverse.dropWhile pyIsWS).length ≤
      (l.dropWhile pyIsWS).length := by
    have := length_dropWhile_le pyIsWS (l.dropWhile pyIsWS).reverse
    simpa using this
  have hlen3 := congrArg List.length h
  simp only [List.length_reverse] at hlen3
  have hd : l.dropWhile pyIsWS = l :=
    dropWhile_eq_of_length _ _ (by omega)
  constructor
  · exact hd
  · rw [hd] at h
    have := congrArg List.reverse h
    rwa [List.reverse_reverse] at this

theorem head_not_ws_of_dropWhile_self {c : Char} {t : List Char}
    (h : (c :: t).dropWhile pyIsWS = c :: t) : ¬ pyIsWS c := by
  intro hws
  rw [List.dropWhile_cons, if_pos hws] at h
  have hlen := congrArg List.length h
  have := length_dropWhile_le pyIsWS t
  simp only [List.length_cons] at hlen
  omega

theorem dropWhile_append_of_head {la rest : List Char}
    (hla : la ≠ []) (hhead : ¬ pyIsWS (la.headD ' ')) :
    (la ++ rest).dropWhile pyIsWS = la ++ rest := by
  cases la with
  | nil => exact absurd rfl hla
  | cons c t =>
    simp only [List.headD_cons] at hhead
    rw [List.cons_append, List.dropWhile_cons, if_neg hhead]

theorem dropTrail_append_space (y : List Char) :
    dropTrailWS (y ++ [' ']) = dropTrailWS y := by
  unfold dropTrailWS
  rw [List.reverse_append]
  simp [List.dropWhile_cons, pyIsWS]

theorem dropTrail_of_last (y lc : List Char) (hlc : lc ≠ [])
    (hlast : lc.reverse.dropWhile pyIsWS = lc.reverse) :
    dropTrailWS (y ++ lc) = y ++ lc := by
  unfold dropTrailWS
  rw [List.reverse_append]
  have hrev : lc.reverse ≠ [] := by
    intro hr
    exact hlc (by simpa using congrArg List.reverse hr)
  have hhead : ¬ pyIsWS (lc.reverse.headD ' ') := by
    cases hc : lc.reverse with
    | nil => exact absurd hc hrev
    | cons c t =>
      rw [hc] at hlast
      simp only [List.headD_cons]
      exact head_not_ws_of_dropWhile_self hlast
  rw [dropWhile_append_of_head hrev hhead]
  rw [← List.reverse_append]
  rw [List.reverse_reverse]

theorem isPrefixOf_refl (l : List Char) : l.isPrefixOf l = true := by
  induction l with
  | nil => rfl
  | cons c t ih =>
    simp only [List.isPrefixOf_cons₂_self]
    exact ih

theorem replaceSubAux_nil_fuel (pat rep : List Char) :
    ∀ fuel, replaceSubAux pat rep fuel [] = [] := by
  intro fuel
  cases fuel <;> rfl

theorem replace_head_pat (p0 : Char) (prest : List Char) (x : List Char)
    (hx : ∀ ch ∈ x, ch ≠ p0) :
    ∀ fuel, x.length < fuel →
      replaceSubAux (p0 :: prest) [] fuel (x ++ (p0 :: prest)) = x := by
  induction x with
  | nil =>
    intro fuel hfuel
    cases fuel with
    | zero => omega
    | succ f =>
      simp only [List.nil_append]
      unfold replaceSubAux
      dsimp only
      rw [if_pos ⟨by simp, isPrefixOf_refl (p0 :: prest)⟩]
      rw [List.drop_length]
      rw [replaceSubAux_nil_fuel]
      rfl
  | cons c t ih =>
    intro fuel hfuel
    cases fuel with
    | zero => omega
    | succ f =>
      have hc : c ≠ p0 := hx c (List.mem_cons_self c t)
      rw [List.cons_append]
      unfold replaceSubAux
      dsimp only
      rw [if_neg (by
        intro hand
        have hpre := hand.2
        simp only [List.isPrefixOf_cons₂] at hpre
        rw [show (p0 == c) = false from beq_eq_false_iff_ne.mpr
          (fun h => hc h.symm)] at hpre
        simp at hpre)]
      rw [ih (fun ch hch => hx ch (List.mem_cons_of_mem c hch)) f (by
        simp only [List.length_cons] at hfuel
        omega)]

theorem splitSubAux_cons_pos (sep : List Char) (fuel : Nat) (c : Char) (rest : List Char)
    (h : sep ≠ [] ∧ sep.isPrefixOf (c :: rest) = true) :
    splitSubAux sep (fuel + 1) (c :: rest) =
      [] :: splitSubAux sep fuel ((c :: rest).drop sep.length) := by
  rw [splitSubAux.eq_def]
  dsimp only
  rw [if_pos h]

theorem splitSubAux_cons_neg (sep : List Char) (fuel : Nat) (c : Char) (rest : List Char)
    (h : ¬(sep ≠ [] ∧ sep.isPrefixOf (c :: rest) = true)) :
    splitSubAux sep (fuel + 1) (c :: rest) =
      (splitSubAux sep fuel rest).modifyHead (c :: ·) := by
  rw [splitSubAux.eq_def]
  dsimp only
  rw [if_neg h]

theorem split_sep_no_dash (y : List Char) (hy : ∀ ch ∈ y, ch ≠ '-') :
    splitSubList " - ".toList y = [y] := by
  induction y with
  | nil => rfl
  | cons c t ih =>
    show splitSubAux " - ".toList (c :: t).length (c :: t) = [c :: t]
    rw [List.length_cons]
    rw [splitSubAux_cons_neg _ _ _ _ (by
      intro hand
      have hpre := hand.2
      rw [show (" - ".toList : List Char) = ' ' :: '-' :: ' ' :: [] from rfl] at hpre
      cases t with
      | nil =>
        simp only [List.isPrefixOf_cons₂, List.isPrefixOf] at hpre
        simp at hpre
      | cons c2 t2 =>
        have hc2 : c2 ≠ '-' := hy c2 (List.mem_cons_of_mem c (List.mem_cons_self c2 t2))
        simp only [List.isPrefixOf_cons₂] at hpre
        rw [show (('-' : Char) == c2) = false from beq_eq_false_iff_ne.mpr
          (fun h => hc2 h.symm)] at hpre
        simp at hpre)]
    have ih2 : splitSubAux " - ".toList t.length t = [t] :=
      ih (fun ch hch => hy ch (List.mem_cons_of_mem c hch))
    rw [ih2]
    rfl

theorem splitSubAux_fuel_irrel (sep : List Char) (hsep : sep ≠ []) :
    ∀ (f1 : Nat) (l : List Char) (f2 : Nat), l.length ≤ f1 → l.length ≤ f2 →
      splitSubAux sep f1 l = splitSubAux sep f2 l := by
  intro f1
  induction f1 with
  | zero =>
    intro l f2 h1 h2
    have : l = [] := List.eq_nil_of_length_eq_zero (by omega)
    subst this
    cases f2 <;> rfl
  | succ g1 ih =>
    intro l f2 h1 h2
    cases l with
    | nil => cases f2 <;> rfl
    | cons c rest =>
      cases f2 with
      | zero => simp at h2
      | succ g2 =>
        have hs1 : 1 ≤ sep.length := by
          cases sep with
          | nil => exact absurd rfl hsep
          | cons a b => simp
        by_cases hp : sep ≠ [] ∧ sep.isPrefixOf (c :: rest) = true
        · rw [splitSubAux_cons_pos _ _ _ _ hp, splitSubAux_cons_pos _ _ _ _ hp]
          rw [ih ((c :: rest).drop sep.length) g2
            (by
              have hd := List.length_drop sep.length (c :: rest)
              simp only [List.length_cons] at hd h1 ⊢
              omega)
            (by
              have hd := List.length_drop sep.length (c :: rest)
              simp only [List.length_cons] at hd h2 ⊢
              omega)]
        · rw [splitSubAux_cons_neg _ _ _ _ hp, splitSubAux_cons_neg _ _ _ _ hp]
          rw [ih rest g2
            (by simp only [List.length_cons] at h1; omega)
            (by simp only [List.length_cons] at h2; omega)]

theorem split_boundary (x rest : List Char) (hx : ∀ ch ∈ x, ch ≠ '-') :
    splitSubList " - ".toList (x ++ (" - ".toList ++ rest)) =
      x :: splitSubList " - ".toList rest := by
  induction x with
  | nil =>
    simp only [List.nil_append]
    show splitSubAux " - ".toList (" - ".toList ++ rest).length (" - ".toList ++ rest) =
      [] :: splitSubAux " - ".toList rest.length rest
    have hl : (" - ".toList ++ rest).length = rest.length + 2 + 1 := by
      simp [List.length_append]
    rw [hl]
    rw [show ((" - ".toList ++ rest : List Char)) = ' ' :: ('-' :: (' ' :: rest)) from rfl]
    rw [splitSubAux_cons_pos _ _ _ _ ⟨by decide, by
      rw [show (" - ".toList : List Char) = ' ' :: '-' :: ' ' :: [] from rfl]
      simp [List.isPrefixOf_cons₂, List.isPrefixOf]⟩]
    rw [show (' ' :: ('-' :: (' ' :: rest))).drop (" - ".toList).length = rest from rfl]
    rw [splitSubAux_fuel_irrel " - ".toList (by decide) (rest.length + 2) rest
      rest.length (by omega) (Nat.le_refl _)]
  | cons c t ih =>
    rw [List.cons_append]
    show splitSubAux " - ".toList (c :: (t ++ (" - ".toList ++ rest))).length
        (c :: (t ++ (" - ".toList ++ rest))) = _
    rw [List.length_cons]
    rw [splitSubAux_cons_neg _ _ _ _ (by
      intro hand
      have hpre := hand.2
      rw [show (" - ".toList : List Char) = ' ' :: '-' :: ' ' :: [] from rfl] at hpre
      cases t with
      | nil =>
        simp only [List.nil_append, List.cons_append, List.isPrefixOf_cons₂] at hpre
        rw [show (('-' : Char) == ' ') = false by decide] at hpre
        simp at hpre
      | cons c2 t2 =>
        have hc2 : c2 ≠ '-' := hx c2 (List.mem_cons_of_mem c (List.mem_cons_self c2 t2))
        simp only [List.cons_append, List.isPrefixOf_cons₂] at hpre
        rw [show (('-' : Char) == c2) = false from beq_eq_false_iff_ne.mpr
          (fun h => hc2 h.symm)] at hpre
        simp at hpre)]
    have ih2 : splitSubAux " - ".toList (t ++ (" - ".toList ++ rest)).length
        (t ++ (" - ".toList ++ rest)) = t :: splitSubAux " - ".toList rest.length rest :=
      ih (fun ch hch => hx ch (List.mem_cons_of_mem c hch))
    rw [ih2]
    rfl

theorem toList_append_str (s t : String) : (s ++ t).toList = s.toList ++ t.toList := by
  cases s
  cases t
  rfl

/-- C8: on a title built from three clean segments (nonempty, already stripped,
    free of the separator dash and the brand bar), parse_title removes the
    trailing "| LinkedIn" brand, keeps the first segment as the name, and joins
    ALL remaining segments back with " - " as the role/company text. -/
theorem C8_parse_title_segments (a b c : String)
    (ha1 : a ≠ "") (hb1 : b ≠ "") (hc1 : c ≠ "")
    (ha2 : ∀ ch ∈ a.toList, ch ≠ '-' ∧ ch ≠ '|')
    (hb2 : ∀ ch ∈ b.toList, ch ≠ '-' ∧ ch ≠ '|')
    (hc2 : ∀ ch ∈ c.toList, ch ≠ '-' ∧ ch ≠ '|')
    (ha3 : pyStrip a = a) (hb3 : pyStrip b = b) (hc3 : pyStrip c = c) :
    parse_title (a ++ " - " ++ b ++ " - " ++ c ++ " | LinkedIn") =
      (a, b ++ " - " ++ c) := by
  have hla : a.toList ≠ [] := by
    intro h
    apply ha1
    have h2 := congrArg String.mk h
    rwa [mk_toList] at h2
  have hlc : c.toList ≠ [] := by
    intro h
    apply hc1
    have h2 := congrArg String.mk h
    rwa [mk_toList] at h2
  have hstripa : pyStripList a.toList = a.toList := congrArg String.toList ha3
  have hstripc : pyStripList c.toList = c.toList := congrArg String.toList hc3
  have hpa := strip_self_parts a.toList hstripa
  have hpc := strip_self_parts c.toList hstripc
  have hheada : ¬ pyIsWS (a.toList.headD ' ') := by
    cases h : a.toList with
    | nil => exact absurd h hla
    | cons ch t =>
      simp only [List.headD_cons]
      have h1 := hpa.1
      rw [h] at h1
      exact head_not_ws_of_dropWhile_self h1
  have hsplit0 : (a ++ " - " ++ b ++ " - " ++ c ++ " | LinkedIn").toList =
      (a.toList ++ " - ".toList ++ b.toList ++ " - ".toList ++ c.toList ++ [' ']) ++
        "| LinkedIn".toList := by
    simp only [toList_append_str, List.append_assoc]
    rfl
  have hne : (a ++ " - " ++ b ++ " - " ++ c ++ " | LinkedIn") ≠ "" := by
    intro h
    have h2 := congrArg String.toList h
    rw [hsplit0] at h2
    simp at h2
  have hxnot : ∀ ch ∈ (a.toList ++ " - ".toList ++ b.toList ++ " - ".toList ++
      c.toList ++ [' ']), ch ≠ '|' := by
    intro ch hch heq
    subst heq
    simp only [List.mem_append] at hch
    rcases hch with ((((h | h) | h) | h) | h) | h
    · exact (ha2 _ h).2 rfl
    · exact absurd h (by decide)
    · exact (hb2 _ h).2 rfl
    · exact absurd h (by decide)
    · exact (hc2 _ h).2 rfl
    · exact absurd h (by decide)
  have hrep : pyReplace (a ++ " - " ++ b ++ " - " ++ c ++ " | LinkedIn")
      "| LinkedIn" "" =
      String.mk (a.toList ++ " - ".toList ++ b.toList ++ " - ".toList ++
        c.toList ++ [' ']) := by
    unfold pyReplace replaceSubList
    congr 1
    rw [hsplit0]
    rw [show ("".toList : List Char) = [] from rfl]
    rw [show ("| LinkedIn".toList : List Char) = '|' :: " LinkedIn".toList from rfl]
    exact replace_head_pat '|' " LinkedIn".toList _ hxnot _ (by
      simp only [List.length_append, List.length_cons]
      omega)
  have hlead : (a.toList ++ " - ".toList ++ b.toList ++ " - ".toList ++
      c.toList ++ [' ']).dropWhile pyIsWS =
      a.toList ++ " - ".toList ++ b.toList ++ " - ".toList ++ c.toList ++ [' '] := by
    have hXr : a.toList ++ " - ".toList ++ b.toList ++ " - ".toList ++
        c.toList ++ [' '] =
        a.toList ++ (" - ".toList ++ (b.toList ++ (" - ".toList ++
          (c.toList ++ [' '])))) := by
      simp only [List.append_assoc]
    rw [hXr]
    exact dropWhile_append_of_head hla hheada
  have hclean : pyStrip (String.mk (a.toList ++ " - ".toList ++ b.toList ++
      " - ".toList ++ c.toList ++ [' '])) =
      String.mk (a.toList ++ (" - ".toList ++ (b.toList ++ (" - ".toList ++
        c.toList)))) := by
    unfold pyStrip
    congr 1
    show pyStripList (a.toList ++ " - ".toList ++ b.toList ++ " - ".toList ++
      c.toList ++ [' ']) = _
    unfold pyStripList dropLeadWS
    rw [hlead]
    rw [dropTrail_append_space]
    rw [dropTrail_of_last _ _ hlc hpc.2]
    simp only [List.append_assoc]
  have hsplitW : splitSubList " - ".toList (a.toList ++ (" - ".toList ++
      (b.toList ++ (" - ".toList ++ c.toList)))) =
      [a.toList, b.toList, c.toList] := by
    rw [split_boundary _ _ (fun ch hch => (ha2 ch hch).1)]
    rw [split_boundary _ _ (fun ch hch => (hb2 ch hch).1)]
    rw [split_sep_no_dash _ (fun ch hch => (hc2 ch hch).1)]
  have hfil : ∀ (s : String), s ≠ "" → ∀ (l : List String),
      (s :: l).filter (fun p => p ≠ "") = s :: l.filter (fun p => p ≠ "") := by
    intro s hs l
    simp [List.filter_cons, hs]
  unfold parse_title
  rw [if_neg hne]
  dsimp only
  rw [hrep, hclean]
  unfold pySplitOn
  rw [show (String.mk (a.toList ++ (" - ".toList ++ (b.toList ++
    (" - ".toList ++ c.toList))))).toList =
    a.toList ++ (" - ".toList ++ (b.toList ++ (" - ".toList ++ c.toList)))
    from rfl]
  rw [hsplitW]
  simp only [List.map_cons, List.map_nil, mk_toList]
  rw [ha3, hb3, hc3]
  rw [hfil a ha1, hfil b hb1, hfil c hc1]
  rfl

theorem C8_witness :
    parse_title "Jane Doe - Campus Recruiter - Goldman Sachs | LinkedIn" =
      ("Jane Doe", "Campus Recruiter - Goldman Sachs") := by
  have h := C8_parse_title_segments "Jane Doe" "Campus Recruiter" "Goldman Sachs"
    (by decide) (by decide) (by decide) (by decide) (by decide) (by decide)
    (by decide) (by decide) (by decide)
  exact h
